import Mathlib

/-!
Verification development for the egg-media-server RTMP core.

The JavaScript source is shallowly embedded: Node Buffers become lists of
byte values (each < 256), JavaScript numbers used as integers become Nat,
fallible operations (out-of-range Buffer reads, thrown exceptions) become
Option.  Functions keep the source names.
-/

namespace EggMedia

/-! ## Byte and buffer helpers -/

/-- Reads a list element, defaulting to 0.  Used for reads into the fixed
18-byte parser scratch buffer, where every read offset is in range on the
paths the parser actually takes. -/
def bget (l : List Nat) (i : Nat) : Nat := l.getD i 0

/-- Big-endian 2-byte encoding (writeUInt16BE).  Node throws for values
at or above 2 to the 16; the model wraps, and every theorem that relies on
this helper restricts the value accordingly. -/
def be2 (v : Nat) : List Nat := [v / 256 % 256, v % 256]

/-- Big-endian 3-byte encoding (writeUIntBE with byteLength 3). -/
def be3 (v : Nat) : List Nat := [v / 65536 % 256, v / 256 % 256, v % 256]

/-- Big-endian 4-byte encoding (writeUInt32BE). -/
def be4 (v : Nat) : List Nat :=
  [v / 16777216 % 256, v / 65536 % 256, v / 256 % 256, v % 256]

/-- Little-endian 4-byte encoding (writeUInt32LE). -/
def le4 (v : Nat) : List Nat :=
  [v % 256, v / 256 % 256, v / 65536 % 256, v / 16777216 % 256]

/-- Big-endian 3-byte read at an offset (readUIntBE with byteLength 3). -/
def readUIntBE3 (buf : List Nat) (off : Nat) : Nat :=
  bget buf off * 65536 + bget buf (off + 1) * 256 + bget buf (off + 2)

/-- Big-endian 4-byte read at an offset (readUInt32BE). -/
def readUInt32BE (buf : List Nat) (off : Nat) : Nat :=
  bget buf off * 16777216 + bget buf (off + 1) * 65536 +
    bget buf (off + 2) * 256 + bget buf (off + 3)

/-- Little-endian 4-byte read at an offset (readUInt32LE). -/
def readUInt32LE (buf : List Nat) (off : Nat) : Nat :=
  bget buf off + bget buf (off + 1) * 256 + bget buf (off + 2) * 65536 +
    bget buf (off + 3) * 16777216

/-- Buffer.copy semantics: write src into target starting at off, silently
truncating at the end of the target, leaving the length unchanged. -/
def listWriteAt (target : List Nat) (off : Nat) (src : List Nat) : List Nat :=
  target.take off ++ src.take (target.length - off) ++ target.drop (off + src.length)

theorem listWriteAt_nil (target : List Nat) (off : Nat) :
    listWriteAt target off [] = target := by
  simp [listWriteAt]

theorem listWriteAt_length (target : List Nat) (off : Nat) (src : List Nat) :
    (listWriteAt target off src).length = target.length := by
  simp only [listWriteAt, List.length_append, List.length_take, List.length_drop]
  omega

/-- Writing exactly at the end of a fully written prefix, with enough zero
slack, appends the written bytes. -/
theorem listWriteAt_exact (pre src : List Nat) (m : Nat) :
    listWriteAt (pre ++ List.replicate (src.length + m) 0) pre.length src
      = pre ++ src ++ List.replicate m 0 := by
  simp only [listWriteAt, List.length_append, List.length_replicate,
    List.take_append_eq_append_take, List.drop_append_eq_append_drop,
    List.take_length, Nat.sub_self, List.take_zero, List.append_nil]
  rw [List.take_of_length_le (by omega), List.drop_of_length_le (by omega)]
  rw [show pre.length + src.length - pre.length = src.length by omega]
  simp [List.drop_replicate]

/-! ## AMF3 UInt29 / Integer codec (source part_001, amf module)

The encoder length selection uses a chain of non-exclusive if statements,
exactly as in the source, so the one-byte case is dead: every value below
0x200000 takes the three-byte branch. -/

/-- Generic encode of an AMF3 UInt29 value (amf3encUI29).  Bit operations
mirror the source: x & 0x7F is x % 128, x >> k is division, | is Nat.lor.
The length selection is a chain of independent if statements as in the
source, so the one- and two-byte branches are dead code.  Each byte is
emitted with writeUInt8, which throws a RangeError when the value is not
below 256 (the four-byte branch really produces such values, since its two
top bytes use an OR 0x7F where an AND mask was presumably intended); a
throw is modeled as none. -/
def amf3encUI29 (num : Nat) : Option (List Nat) :=
  let len := 0
  let len := if num < 0x80 then 1 else len
  let len := if num < 0x4000 then 2 else len
  let len := if num < 0x200000 then 3 else len
  let len := if num ≥ 0x200000 then 4 else len
  let bytesOut : List Nat :=
    match len with
    | 1 => [num]
    | 2 => [num % 0x80, num / 0x80 ||| 0x80]
    | 3 => [num % 0x80, num / 0x80 % 0x80, num / 0x4000 ||| 0x80]
    | 4 => [num % 0x100, num / 0x100 % 0x80, num / 0x8000 ||| 0x7F, num / 0x400000 ||| 0x7F]
    | _ => []
  if bytesOut.all (fun b => b < 256) then some bytesOut else none

/-- Loop of amf3decUI29: a do-while that reads buf at index len (starting at
index 1, past the marker byte the caller leaves in place), accumulating
val = val * 128 + (b % 128), and continues while len < 5 or the byte has its
top bit set.  An out-of-range read (Node throws a RangeError) is none.
Returns (val, len, last byte read). -/
def amf3decUI29Loop : Nat → List Nat → Nat → Nat → Option (Nat × Nat × Nat)
  | 0, _, _, _ => none
  | fuel + 1, buf, val, len =>
    match buf[len]? with
    | none => none
    | some b =>
      let v := val * 128 + b % 128
      let n := len + 1
      if n < 5 ∨ b > 0x7F then amf3decUI29Loop fuel buf v n
      else some (v, n, b)

/-- Generic decode of AMF3 UInt29 values (amf3decUI29).  After the loop, when
exactly five bytes were consumed the final byte is ORed back in whole.
The fuel buf.length always suffices: the loop reads at strictly increasing
indices starting at 1, so it performs at most buf.length iterations before
an out-of-range read (none) or a terminating byte. -/
def amf3decUI29 (buf : List Nat) : Option (Nat × Nat) :=
  match amf3decUI29Loop buf.length buf 0 1 with
  | none => none
  | some (val, len, b) =>
    some (if len = 5 then val ||| b else val, len)

/-- AMF3 encode an integer (amf3encInteger): marker 0x04 then the UInt29
encoding of num & 0x3FFFFFFF. -/
def amf3encInteger (num : Nat) : Option (List Nat) :=
  (amf3encUI29 (num &&& 0x3FFFFFFF)).map (fun bs => 0x04 :: bs)

/-- AMF3 decode an integer (amf3decInteger): UInt29 decode, then values above
0x0FFFFFFF are reinterpreted as 29-bit two-complement negatives. -/
def amf3decInteger (buf : List Nat) : Option (Nat × Int) :=
  match amf3decUI29 buf with
  | none => none
  | some (value, len) =>
    some (len, if value > 0x0FFFFFFF then ((value &&& 0x0FFFFFFF : Nat) : Int) - 0x10000000 else (value : Int))

/-! ### Bitwise helper lemmas for the UInt29 characterization -/

theorem lor127_of_lt (a : Nat) (h : a < 128) : a ||| 127 = 127 := by
  apply Nat.eq_of_testBit_eq
  intro i
  rw [Nat.testBit_lor]
  rcases Nat.lt_or_ge i 7 with hi | hi
  · have h127 : Nat.testBit 127 i = true := by
      interval_cases i <;> decide
    simp [h127]
  · have h127 : Nat.testBit 127 i = false := by
      have : (127 : Nat) < 2 ^ i := by
        calc (127 : Nat) < 2 ^ 7 := by norm_num
        _ ≤ 2 ^ i := Nat.pow_le_pow_right (by norm_num) hi
      exact Nat.testBit_lt_two_pow this
    have ha : Nat.testBit a i = false := by
      have : a < 2 ^ i := by
        calc a < 128 := h
        _ = 2 ^ 7 := by norm_num
        _ ≤ 2 ^ i := Nat.pow_le_pow_right (by norm_num) hi
      exact Nat.testBit_lt_two_pow this
    simp [h127, ha]

theorem lor127_mod128 (a : Nat) : (a ||| 127) % 128 = 127 := by
  have h7 : (128 : Nat) = 2 ^ 7 := by norm_num
  apply Nat.eq_of_testBit_eq
  intro i
  rcases Nat.lt_or_ge i 7 with hi | hi
  · rw [h7, Nat.testBit_mod_two_pow, Nat.testBit_lor]
    have h127 : Nat.testBit 127 i = true := by
      interval_cases i <;> decide
    simp [hi, h127]
  · rw [h7, Nat.testBit_mod_two_pow]
    have h127 : Nat.testBit 127 i = false := by
      rcases Nat.exists_eq_add_of_le hi with ⟨j, rfl⟩
      have : (127 : Nat) < 2 ^ (7 + j) := by
        calc (127 : Nat) < 2 ^ 7 := by norm_num
        _ ≤ 2 ^ (7 + j) := Nat.pow_le_pow_right (by norm_num) (by omega)
      exact Nat.testBit_lt_two_pow this
    simp [h127, Nat.lt_irrefl]
    omega

theorem lor127_div128 (a : Nat) : (a ||| 127) / 128 = a / 128 := by
  have h1 : (a ||| 127) / 128 = (a ||| 127) >>> 7 := by rw [Nat.shiftRight_eq_div_pow]
  have h2 : a / 128 = a >>> 7 := by rw [Nat.shiftRight_eq_div_pow]
  rw [h1, h2]
  apply Nat.eq_of_testBit_eq
  intro i
  rw [Nat.testBit_shiftRight, Nat.testBit_shiftRight, Nat.testBit_lor]
  have h127 : Nat.testBit 127 (7 + i) = false := by
    have : (127 : Nat) < 2 ^ (7 + i) := by
      calc (127 : Nat) < 2 ^ 7 := by norm_num
      _ ≤ 2 ^ (7 + i) := Nat.pow_le_pow_right (by norm_num) (by omega)
    exact Nat.testBit_lt_two_pow this
  simp [h127]

theorem lor127_of_mod_eq (v : Nat) (h : v % 128 = 127) : v ||| 127 = v := by
  have h7 : (128 : Nat) = 2 ^ 7 := by norm_num
  apply Nat.eq_of_testBit_eq
  intro i
  rw [Nat.testBit_lor]
  rcases Nat.lt_or_ge i 7 with hi | hi
  · have hv : Nat.testBit v i = true := by
      have := Nat.testBit_mod_two_pow v 7 i
      rw [← h7, h] at this
      have h127 : Nat.testBit 127 i = true := by
        interval_cases i <;> decide
      rw [h127] at this
      simpa [hi] using this.symm
    simp [hv]
  · have h127 : Nat.testBit 127 i = false := by
      have : (127 : Nat) < 2 ^ i := by
        calc (127 : Nat) < 2 ^ 7 := by norm_num
        _ ≤ 2 ^ i := Nat.pow_le_pow_right (by norm_num) hi
      exact Nat.testBit_lt_two_pow this
    simp [h127]

/-! ### Claim C10 -/

/-- Value actually produced by amf3decUI29 on a four-byte amf3encUI29
encoding: the two top bytes degenerate to 0x7F through the OR mask. -/
def amf3UI29Garble (n : Nat) : Nat :=
  n % 128 * 2097152 + n / 256 % 128 * 16384 + 16383

theorem amf3decUI29Loop_four (m b0 b1 b2 : Nat) :
    amf3decUI29Loop 4 [m, b0, b1, b2] 0 1 = none := by
  simp only [amf3decUI29Loop, List.getElem?_cons_succ, List.getElem?_cons_zero]
  norm_num

theorem amf3decUI29Loop_five (m b0 b1 b2 b3 : Nat) (h3 : b3 ≤ 127) :
    amf3decUI29Loop 5 [m, b0, b1, b2, b3] 0 1 =
      some ((((b0 % 128) * 128 + b1 % 128) * 128 + b2 % 128) * 128 + b3 % 128, 5, b3) := by
  simp only [amf3decUI29Loop, List.getElem?_cons_succ, List.getElem?_cons_zero]
  norm_num
  intro hgt
  exact absurd hgt (by omega)

/-- Claim C10 counterexample: at n = 0 the encoder emits the three-byte
UInt29 form (four bytes with the marker), and the decoder, which always
tries to read at least four payload bytes, runs off the end of the buffer
(a thrown RangeError, modeled as none) instead of returning 0. -/
theorem c10_counterexample :
    amf3encInteger 0 = some [4, 0, 0, 128] ∧ amf3decInteger [4, 0, 0, 128] = none := by
  constructor
  · unfold amf3encInteger amf3encUI29
    have hmask : (0 : Nat) &&& 0x3FFFFFFF = 0 := Nat.zero_and _
    rw [hmask]
    have hlor : (0 : Nat) / 0x4000 ||| 0x80 = 128 := by
      rw [Nat.zero_div]
      exact Nat.zero_or _
    norm_num [hlor]
  · unfold amf3decInteger amf3decUI29
    have h4 : ([4, 0, 0, 128] : List Nat).length = 4 := rfl
    rw [h4, amf3decUI29Loop_four]

theorem amf3UI29Garble_ne (n : Nat) (h1 : 0x200000 ≤ n) (h2 : n < 0x800000) :
    amf3UI29Garble n ≠ n := by
  unfold amf3UI29Garble
  omega

/-- Claim C10, corrected: the UInt29 / Integer codec pair round-trips on no
value of the claimed range at all.  For n below 0x200000 the encoder takes
the three-byte branch (the if chain is non-exclusive) and the decoder reads
out of range; for 0x200000 ≤ n < 0x800000 both sides succeed but the decoded
value is amf3UI29Garble n, never n; for n ≥ 0x800000 the encoder itself
throws, because (n >> 15) | 0x7F no longer fits in a byte. -/
theorem c10_amended (n : Nat) (hn : n ≤ 0x0FFFFFFF) :
    (n < 0x200000 →
      amf3encInteger n = some [0x04, n % 0x80, n / 0x80 % 0x80, n / 0x4000 ||| 0x80] ∧
      amf3decInteger [0x04, n % 0x80, n / 0x80 % 0x80, n / 0x4000 ||| 0x80] = none) ∧
    (0x200000 ≤ n → n < 0x800000 →
      amf3encInteger n =
        some [0x04, n % 0x100, n / 0x100 % 0x80, n / 0x8000 ||| 0x7F, n / 0x400000 ||| 0x7F] ∧
      amf3decInteger [0x04, n % 0x100, n / 0x100 % 0x80, n / 0x8000 ||| 0x7F, n / 0x400000 ||| 0x7F]
        = some (5, (amf3UI29Garble n : Int)) ∧
      amf3UI29Garble n ≠ n) ∧
    (0x800000 ≤ n → amf3encInteger n = none) := by
  refine ⟨?_, ?_, ?_⟩
  · intro h
    constructor
    · unfold amf3encInteger amf3encUI29
      rw [show n &&& 0x3FFFFFFF = n from by
        have h9 := Nat.and_pow_two_sub_one_eq_mod n 30
        norm_num at h9
        rw [h9]
        exact Nat.mod_eq_of_lt (by omega)]
      have hc1 : ¬ n ≥ 0x200000 := by omega
      simp only [if_neg hc1, if_pos h]
      have hb : (n / 0x4000 ||| 0x80) < 256 := by
        have hx : n / 0x4000 < 256 := by omega
        have h2 := Nat.or_lt_two_pow (x := n / 0x4000) (y := 0x80) (n := 8)
          (by norm_num; omega) (by norm_num)
        norm_num at h2
        exact h2
      have hall : ([n % 0x80, n / 0x80 % 0x80, n / 0x4000 ||| 0x80].all (fun b => b < 256)) = true := by
        simp only [List.all_cons, List.all_nil, Bool.and_eq_true, decide_eq_true_eq]
        exact ⟨by omega, by omega, hb, trivial⟩
      rw [hall]
      simp
    · unfold amf3decInteger amf3decUI29
      rw [show ([0x04, n % 0x80, n / 0x80 % 0x80, n / 0x4000 ||| 0x80] : List Nat).length = 4
        from by simp]
      rw [amf3decUI29Loop_four]
  · intro h1 h2
    refine ⟨?_, ?_, ?_⟩
    · unfold amf3encInteger amf3encUI29
      rw [show n &&& 0x3FFFFFFF = n from by
        have h9 := Nat.and_pow_two_sub_one_eq_mod n 30
        norm_num at h9
        rw [h9]
        exact Nat.mod_eq_of_lt (by omega)]
      simp only [if_pos (show n ≥ 0x200000 from h1)]
      have hb2 : (n / 0x8000 ||| 0x7F) < 256 := by
        have hlt : n / 0x8000 < 256 := by omega
        have h3 := Nat.or_lt_two_pow (x := n / 0x8000) (y := 0x7F) (n := 8)
          (by norm_num; omega) (by norm_num)
        norm_num at h3
        exact h3
      have hb3 : (n / 0x400000 ||| 0x7F) < 256 := by
        have h3 := Nat.or_lt_two_pow (x := n / 0x400000) (y := 0x7F) (n := 8)
          (by norm_num; omega) (by norm_num)
        norm_num at h3
        exact h3
      have hall : ([n % 0x100, n / 0x100 % 0x80, n / 0x8000 ||| 0x7F,
          n / 0x400000 ||| 0x7F].all (fun b => b < 256)) = true := by
        simp only [List.all_cons, List.all_nil, Bool.and_eq_true, decide_eq_true_eq]
        exact ⟨by omega, by omega, hb2, hb3, trivial⟩
      rw [hall]
      simp
    · unfold amf3decInteger amf3decUI29
      have hb3small : n / 0x400000 < 128 := by omega
      have hb3 : n / 0x400000 ||| 0x7F = 127 := lor127_of_lt _ hb3small
      rw [hb3]
      rw [show ([0x04, n % 0x100, n / 0x100 % 0x80, n / 0x8000 ||| 0x7F, 127] : List Nat).length = 5
        from by simp]
      rw [amf3decUI29Loop_five _ _ _ _ 127 (by norm_num)]
      have hm1 : n % 0x100 % 128 = n % 128 := by omega
      have hm2 : n / 0x100 % 0x80 % 128 = n / 256 % 128 := by omega
      have hm3 : (n / 0x8000 ||| 0x7F) % 128 = 127 := lor127_mod128 _
      rw [hm1, hm2, hm3]
      have hval : ((n % 128 * 128 + n / 256 % 128) * 128 + 127) * 128 + 127 % 128
          = amf3UI29Garble n := by
        unfold amf3UI29Garble
        omega
      rw [hval]
      have hlor : amf3UI29Garble n ||| 127 = amf3UI29Garble n := by
        apply lor127_of_mod_eq
        unfold amf3UI29Garble
        omega
      have hsmall : ¬ amf3UI29Garble n > 0x0FFFFFFF := by
        unfold amf3UI29Garble
        have hx : n % 128 ≤ 127 := by omega
        have hy : n / 256 % 128 ≤ 127 := by omega
        omega
      simp [hlor, hsmall]
    · exact amf3UI29Garble_ne n h1 h2
  · intro h
    unfold amf3encInteger amf3encUI29
    rw [show n &&& 0x3FFFFFFF = n from by
      have h9 := Nat.and_pow_two_sub_one_eq_mod n 30
      norm_num at h9
      rw [h9]
      exact Nat.mod_eq_of_lt (by omega)]
    simp only [if_pos (show n ≥ 0x200000 by omega)]
    have hbad : ¬ (n / 0x8000 ||| 0x7F) < 256 := by
      intro hcon
      have hd : (n / 0x8000 ||| 127) / 128 = n / 0x8000 / 128 := lor127_div128 _
      have hge : n / 0x8000 ≥ 256 := by omega
      have hdd : (n / 0x8000 ||| 127) / 128 * 128 ≤ (n / 0x8000 ||| 127) :=
        Nat.div_mul_le_self _ _
      omega
    have hall : ([n % 0x100, n / 0x100 % 0x80, n / 0x8000 ||| 0x7F,
        n / 0x400000 ||| 0x7F].all (fun b => b < 256)) = false := by
      simp only [List.all_cons, List.all_nil]
      have : decide (n / 0x8000 ||| 0x7F < 256) = false := decide_eq_false hbad
      rw [this]
      simp
    rw [hall]
    simp

/-- Claim C10 witness: the corrected characterization applied at the concrete
input 0x300000, which falls in the branch where both encode and decode
succeed but the value comes back garbled. -/
theorem c10_witness :
    ((0x300000 : Nat) < 0x200000 →
      amf3encInteger 0x300000 =
        some [0x04, 0x300000 % 0x80, 0x300000 / 0x80 % 0x80, 0x300000 / 0x4000 ||| 0x80] ∧
      amf3decInteger [0x04, 0x300000 % 0x80, 0x300000 / 0x80 % 0x80, 0x300000 / 0x4000 ||| 0x80]
        = none) ∧
    ((0x200000 : Nat) ≤ 0x300000 → (0x300000 : Nat) < 0x800000 →
      amf3encInteger 0x300000 =
        some [0x04, 0x300000 % 0x100, 0x300000 / 0x100 % 0x80, 0x300000 / 0x8000 ||| 0x7F,
          0x300000 / 0x400000 ||| 0x7F] ∧
      amf3decInteger [0x04, 0x300000 % 0x100, 0x300000 / 0x100 % 0x80,
          0x300000 / 0x8000 ||| 0x7F, 0x300000 / 0x400000 ||| 0x7F]
        = some (5, (amf3UI29Garble 0x300000 : Int)) ∧
      amf3UI29Garble 0x300000 ≠ 0x300000) ∧
    ((0x800000 : Nat) ≤ 0x300000 → amf3encInteger 0x300000 = none) :=
  c10_amended 0x300000 (by norm_num)

/-! ## RTMP chunk codec (source part_001, rtmp_session module)

Bit operations of the chunk codec act on byte-ranged values and are
translated to arithmetic: x & 0x3F is x % 64, x & 0xFF is x % 256,
x >> 6 is x / 64, x >> 8 is x / 256, and (fmt << 6) | cid for cid < 64 is
fmt * 64 + cid (the operands occupy disjoint bit ranges).  An assignment to
a Buffer element stores the value modulo 256. -/

def rtmpHeaderSize : List Nat := [11, 7, 3, 0]

/-- Basic header encoder (rtmpChunkBasicHeaderCreate).  Note the three-byte
form is chosen for cid ≥ 64 + 255 = 319, so cid 319 itself gets three
bytes. -/
def rtmpChunkBasicHeaderCreate (fmt cid : Nat) : List Nat :=
  if cid ≥ 64 + 255 then
    [(fmt * 64 + 1) % 256, (cid - 64) % 256, (cid - 64) / 256 % 256]
  else if cid ≥ 64 then
    [(fmt * 64 + 0) % 256, (cid - 64) % 256]
  else
    [(fmt * 64 + cid) % 256]

/-- Chunk-stream id computed by rtmpPacketParse from the first bytes of the
parser buffer.  In the source the three-byte case reads 64 + b1 + b2 << 8;
JavaScript operator precedence parses that as (64 + b1 + b2) << 8, and with
b1, b2 ≤ 255 the shifted value stays far below 2^31, so the 32-bit shift is
just multiplication by 256. -/
def rtmpParseCid (b0 b1 b2 basicBytes : Nat) : Nat :=
  if basicBytes = 2 then 64 + b1
  else if basicBytes = 3 then (64 + b1 + b2) * 256
  else b0 % 64

/-! ### Claim C3 -/

/-- Claim C3: the three-byte basic-header form should yield
cid = 64 + b1 + b2 * 256, and the spec declares that corrected form
authoritative; the code instead computes (64 + b1 + b2) * 256.  At the
failing input b1 = 1, b2 = 2 the code produces 17152 where the claim
requires 577; even at b1 = b2 = 0 it produces 16384 instead of 64. -/
theorem c3_code_bug_eval :
    rtmpParseCid 1 1 2 3 = 17152 ∧ (64 + 1 + 2 * 256 : Nat) = 577 ∧
    rtmpParseCid 1 0 0 3 = 16384 ∧ (64 + 0 + 0 * 256 : Nat) = 64 := by
  decide

/-! ### Claim C4 -/

/-- Claim C4 counterexample: at fmt = 0, cid = 319 the claim requires a
two-byte basic header with second byte 255, but the encoder emits the
three-byte form (its guard is cid ≥ 64 + 255, i.e. 319). -/
theorem c4_counterexample :
    rtmpChunkBasicHeaderCreate 0 319 = [1, 255, 0] ∧
    (rtmpChunkBasicHeaderCreate 0 319).length ≠ 2 := by
  decide

/-- Claim C4, corrected: for fmt 0..3 the encoder emits one byte with low
six bits cid for cid 2..63, two bytes with second byte cid - 64 for
cid 64..318 (not 319 as claimed), and three bytes carrying cid - 64
little-endian for cid 319..65599. -/
theorem c4_amended (fmt cid : Nat) (hf : fmt ≤ 3) :
    (2 ≤ cid → cid ≤ 63 →
      rtmpChunkBasicHeaderCreate fmt cid = [fmt * 64 + cid] ∧
      (fmt * 64 + cid) % 64 = cid) ∧
    (64 ≤ cid → cid ≤ 318 →
      rtmpChunkBasicHeaderCreate fmt cid = [fmt * 64, cid - 64]) ∧
    (319 ≤ cid → cid ≤ 65599 →
      rtmpChunkBasicHeaderCreate fmt cid
        = [fmt * 64 + 1, (cid - 64) % 256, (cid - 64) / 256] ∧
      (cid - 64) % 256 + 256 * ((cid - 64) / 256) = cid - 64) := by
  refine ⟨?_, ?_, ?_⟩
  · intro h2 h63
    unfold rtmpChunkBasicHeaderCreate
    rw [if_neg (by omega), if_neg (by omega)]
    constructor
    · simp only [List.cons.injEq, and_true]
      omega
    · omega
  · intro h64 h318
    unfold rtmpChunkBasicHeaderCreate
    rw [if_neg (by omega), if_pos (by omega)]
    simp only [List.cons.injEq, and_true]
    omega
  · intro h319 h65599
    unfold rtmpChunkBasicHeaderCreate
    rw [if_pos (by omega)]
    have e1 : (fmt * 64 + 1) % 256 = fmt * 64 + 1 := by omega
    have e3 : (cid - 64) / 256 % 256 = (cid - 64) / 256 := by omega
    rw [e1, e3]
    exact ⟨rfl, by omega⟩

/-- Claim C4 witness: the corrected statement applied at fmt = 1, with the
three cid ranges exercised at 5, 100 and 40000 via the quantified cid. -/
theorem c4_witness :
    ((2 ≤ 40000 → (40000 : Nat) ≤ 63 →
      rtmpChunkBasicHeaderCreate 1 40000 = [1 * 64 + 40000] ∧
      (1 * 64 + 40000) % 64 = 40000) ∧
    (64 ≤ 40000 → (40000 : Nat) ≤ 318 →
      rtmpChunkBasicHeaderCreate 1 40000 = [1 * 64, 40000 - 64]) ∧
    (319 ≤ 40000 → (40000 : Nat) ≤ 65599 →
      rtmpChunkBasicHeaderCreate 1 40000
        = [1 * 64 + 1, (40000 - 64) % 256, (40000 - 64) / 256] ∧
      (40000 - 64) % 256 + 256 * ((40000 - 64) / 256) = 40000 - 64)) :=
  c4_amended 1 40000 (by norm_num)

/-! ## RTMP packets and the chunk encoder -/

structure RtmpHeader where
  fmt : Nat
  cid : Nat
  timestamp : Nat
  length : Nat
  type : Nat
  stream_id : Nat
deriving DecidableEq

structure RtmpPacket where
  header : RtmpHeader
  clock : Nat
  delta : Nat
  payload : List Nat
  capacity : Nat
  bytes : Nat
deriving DecidableEq

/-- RtmpPacket.create: the fresh packet template.  The payload starts as the
JavaScript null, modeled as the empty list with capacity 0. -/
def RtmpPacket.create (fmt cid : Nat) : RtmpPacket :=
  { header := { fmt := fmt, cid := cid, timestamp := 0, length := 0, type := 0, stream_id := 0 },
    clock := 0, delta := 0, payload := [], capacity := 0, bytes := 0 }

/-- Message header encoder (rtmpChunkMessageHeaderCreate).  The 3-byte
writeUIntBE calls throw for values at or above 2^24 and writeUInt32LE at
2^32; be3/le4 wrap instead and the round-trip theorems restrict the ranges.
The out buffer is sized by rtmpHeaderSize[fmt % 4] while the writes are
guarded by fmt itself, exactly as in the source. -/
def rtmpChunkMessageHeaderCreate (h : RtmpHeader) : List Nat :=
  let out := List.replicate (rtmpHeaderSize.getD (h.fmt % 4) 0) 0
  let out := if h.fmt ≤ 2 then
      listWriteAt out 0 (be3 (if h.timestamp ≥ 0xffffff then 0xffffff else h.timestamp))
    else out
  let out := if h.fmt ≤ 1 then
      listWriteAt (listWriteAt out 3 (be3 h.length)) 6 [h.type % 256]
    else out
  if h.fmt = 0 then listWriteAt out 7 (le4 h.stream_id) else out

/-- Payload-slicing loop of rtmpChunksCreate.  Each iteration copies up to
chunkSize payload bytes into the preallocated chunks buffer and, when more
payload remains, appends a type-3 basic header (plus the extended timestamp
when in use).  In the source this is a while (payloadSize > 0) loop; the
final iteration sets payloadSize to zero and the loop exits.  The fuel
header.length + 1 bounds the iteration count whenever chunkSize ≥ 1 (with
chunkSize = 0 the JavaScript loop would never terminate). -/
def rtmpChunksCreateLoop (chunkSize : Nat) (payload bh3 : List Nat) (useExt : Bool)
    (ts : Nat) : Nat → List Nat → Nat → Nat → Nat → List Nat
  | 0, chunks, _, _, _ => chunks
  | fuel + 1, chunks, chunksOffset, payloadSize, payloadOffset =>
    if payloadSize = 0 then chunks
    else if payloadSize > chunkSize then
      let chunks := listWriteAt chunks chunksOffset ((payload.drop payloadOffset).take chunkSize)
      let chunksOffset := chunksOffset + chunkSize
      let payloadOffset := payloadOffset + chunkSize
      let payloadSize := payloadSize - chunkSize
      let chunks := listWriteAt chunks chunksOffset bh3
      let chunksOffset := chunksOffset + bh3.length
      let chunks := if useExt then listWriteAt chunks chunksOffset (be4 ts) else chunks
      let chunksOffset := if useExt then chunksOffset + 4 else chunksOffset
      rtmpChunksCreateLoop chunkSize payload bh3 useExt ts fuel chunks chunksOffset
        payloadSize payloadOffset
    else
      let chunks := listWriteAt chunks chunksOffset ((payload.drop payloadOffset).take payloadSize)
      rtmpChunksCreateLoop chunkSize payload bh3 useExt ts fuel chunks chunksOffset 0 payloadOffset

/-- Chunk encoder (rtmpChunksCreate).  The allocation size n counts one byte
per continuation chunk for the type-3 basic header even though that header
is 2 or 3 bytes for cid ≥ 64, and for a payload whose size is an exact
multiple of the chunk size (including size 0) one byte (plus 4 when the
extended timestamp is in use) is subtracted; Buffer.copy then silently
truncates anything that does not fit, exactly as listWriteAt does. -/
def rtmpChunksCreate (outChunkSize : Nat) (packet : RtmpPacket) : List Nat :=
  let header := packet.header
  let payload := packet.payload
  let payloadSize := header.length
  let chunkSize := outChunkSize
  let chunkBasicHeader := rtmpChunkBasicHeaderCreate header.fmt header.cid
  let chunkBasicHeader3 := rtmpChunkBasicHeaderCreate 3 header.cid
  let chunkMessageHeader := rtmpChunkMessageHeaderCreate header
  let useExtendedTimestamp := decide (header.timestamp ≥ 0xffffff)
  let headerSize := chunkBasicHeader.length + chunkMessageHeader.length +
    (if useExtendedTimestamp then 4 else 0)
  let n := headerSize + payloadSize + payloadSize / chunkSize +
    (if useExtendedTimestamp then payloadSize / chunkSize * 4 else 0)
  let n := if payloadSize % chunkSize = 0 then n - 1 - (if useExtendedTimestamp then 4 else 0)
    else n
  let chunks := List.replicate n 0
  let chunks := listWriteAt chunks 0 chunkBasicHeader
  let chunksOffset := chunkBasicHeader.length
  let chunks := listWriteAt chunks chunksOffset chunkMessageHeader
  let chunksOffset := chunksOffset + chunkMessageHeader.length
  let chunks := if useExtendedTimestamp then listWriteAt chunks chunksOffset (be4 header.timestamp)
    else chunks
  let chunksOffset := if useExtendedTimestamp then chunksOffset + 4 else chunksOffset
  rtmpChunksCreateLoop chunkSize payload chunkBasicHeader3 useExtendedTimestamp header.timestamp
    (header.length + 1) chunks chunksOffset payloadSize 0

/-! ## RTMP inbound chunk parser -/

/-- Per-session state of the inbound chunk parser: the 18-byte scratch
buffer, the state-machine state (0 INIT, 1 BASIC_HEADER, 2 MESSAGE_HEADER,
3 EXTENDED_TIMESTAMP, 4 PAYLOAD), byte counters, the current packet and the
cid-indexed continuation map, and the negotiated inbound chunk size. -/
structure ChunkParser where
  parserBuffer : List Nat
  parserState : Nat
  parserBytes : Nat
  parserBasicBytes : Nat
  parserPacket : Option RtmpPacket
  inPackets : List (Nat × RtmpPacket)
  inChunkSize : Nat
deriving DecidableEq

/-- Fresh parser as built in the session constructor, with a given inbound
chunk size (RTMP_CHUNK_SIZE 128 by default, until a Set Chunk Size). -/
def ChunkParser.fresh (inChunkSize : Nat) : ChunkParser :=
  { parserBuffer := List.replicate 18 0, parserState := 0, parserBytes := 0,
    parserBasicBytes := 0, parserPacket := none, inPackets := [], inChunkSize := inChunkSize }

/-- Map.get on the cid-keyed packet map. -/
def mapGet (m : List (Nat × RtmpPacket)) (k : Nat) : Option RtmpPacket :=
  (m.find? (fun e => e.1 == k)).map (fun e => e.2)

/-- Map.set on the cid-keyed packet map: replaces in place, appends when
absent (insertion order is preserved, as for a JavaScript Map). -/
def mapSet (m : List (Nat × RtmpPacket)) (k : Nat) (v : RtmpPacket) :
    List (Nat × RtmpPacket) :=
  if (m.find? (fun e => e.1 == k)).isSome then
    m.map (fun e => if e.1 == k then (k, v) else e)
  else m ++ [(k, v)]

/-- Message-header reader (rtmpChunkMessageHeaderRead): fills timestamp,
length + type, and stream id from the parser buffer according to fmt. -/
def rtmpChunkMessageHeaderRead (basicBytes : Nat) (buf : List Nat) (p0 : RtmpPacket) :
    RtmpPacket :=
  let offset1 := basicBytes
  let p1 := if p0.header.fmt ≤ 2 then
      { p0 with header := { p0.header with timestamp := readUIntBE3 buf offset1 } }
    else p0
  let offset2 := if p0.header.fmt ≤ 2 then offset1 + 3 else offset1
  let p2 := if p0.header.fmt ≤ 1 then
      { p1 with header := { p1.header with
          length := readUIntBE3 buf offset2, type := bget buf (offset2 + 3) } }
    else p1
  let offset3 := if p0.header.fmt ≤ 1 then offset2 + 4 else offset2
  if p0.header.fmt = 0 then
    { p2 with header := { p2.header with stream_id := readUInt32LE buf offset3 } }
  else p2

/-- Packet-header parser (rtmpPacketParse): extracts fmt and cid from the
basic header, fetches or creates the per-cid continuation packet (the
JavaScript object is aliased by both parserPacket and the map; the model
keeps the two in sync explicitly), and reads the message header. -/
def rtmpPacketParse (s : ChunkParser) : ChunkParser :=
  let fmt := bget s.parserBuffer 0 / 64
  let cid := rtmpParseCid (bget s.parserBuffer 0) (bget s.parserBuffer 1)
    (bget s.parserBuffer 2) s.parserBasicBytes
  let p := match mapGet s.inPackets cid with
    | some p => p
    | none => RtmpPacket.create fmt cid
  let p := { p with header := { p.header with fmt := fmt, cid := cid } }
  let p := rtmpChunkMessageHeaderRead s.parserBasicBytes s.parserBuffer p
  { s with parserPacket := some p, inPackets := mapSet s.inPackets cid p }

/-- Payload allocation (rtmpPacketAlloc): grows the payload buffer to
length + 1024 when the capacity is insufficient. -/
def rtmpPacketAlloc (p : RtmpPacket) : RtmpPacket :=
  if p.capacity < p.header.length then
    { p with
      payload := List.replicate (p.header.length + 1024) 0,
      capacity := p.header.length + 1024 }
  else p

/-- Writes the current packet back into the parser, keeping the cid map
entry in sync (aliasing in the source). -/
def ChunkParser.setPacket (s : ChunkParser) (p : RtmpPacket) : ChunkParser :=
  { s with parserPacket := some p, inPackets := mapSet s.inPackets p.header.cid p }

/-- Inbound chunk reader loop: the while (offset < bytes) switch of
rtmpChunkRead.  Each iteration either consumes input bytes or advances the
parser state, and at most four non-consuming transitions happen between two
consuming ones, so the fuel 5 * data.length + 5 supplied by rtmpChunkRead
always suffices.  Inner while loops that fill the scratch buffer byte by
byte are fused into a single take of min(needed, available) bytes.
Dispatched packets (the rtmpHandler call sites) are collected in order. -/
def rtmpChunkReadAux : Nat → ChunkParser → List Nat → List RtmpPacket →
    ChunkParser × List RtmpPacket
  | 0, s, _, acc => (s, acc)
  | fuel + 1, s, data, acc =>
    match data with
    | [] => (s, acc)
    | b :: rest =>
      if s.parserState = 0 then
        let basic := if b % 64 = 0 then 2 else if b % 64 = 1 then 3 else 1
        let s := { s with
          parserBytes := 1,
          parserBuffer := listWriteAt s.parserBuffer 0 [b],
          parserBasicBytes := basic,
          parserState := 1 }
        rtmpChunkReadAux fuel s rest acc
      else if s.parserState = 1 then
        let need := s.parserBasicBytes - s.parserBytes
        let m := min need (b :: rest).length
        let s := { s with
          parserBuffer := listWriteAt s.parserBuffer s.parserBytes ((b :: rest).take m),
          parserBytes := s.parserBytes + m }
        let s := if s.parserBasicBytes ≤ s.parserBytes then { s with parserState := 2 } else s
        rtmpChunkReadAux fuel s ((b :: rest).drop m) acc
      else if s.parserState = 2 then
        let size := rtmpHeaderSize.getD (bget s.parserBuffer 0 / 64) 0 + s.parserBasicBytes
        let need := size - s.parserBytes
        let m := min need (b :: rest).length
        let s := { s with
          parserBuffer := listWriteAt s.parserBuffer s.parserBytes ((b :: rest).take m),
          parserBytes := s.parserBytes + m }
        let s := if size ≤ s.parserBytes then { rtmpPacketParse s with parserState := 3 } else s
        rtmpChunkReadAux fuel s ((b :: rest).drop m) acc
      else if s.parserState = 3 then
        match s.parserPacket with
        | none => (s, acc)
        | some pkt =>
          let size0 := rtmpHeaderSize.getD pkt.header.fmt 0 + s.parserBasicBytes
          let size := if pkt.header.timestamp = 0xFFFFFF then size0 + 4 else size0
          let need := size - s.parserBytes
          let m := min need (b :: rest).length
          let s := { s with
            parserBuffer := listWriteAt s.parserBuffer s.parserBytes ((b :: rest).take m),
            parserBytes := s.parserBytes + m }
          if size ≤ s.parserBytes then
            let ets := if pkt.header.timestamp = 0xFFFFFF
              then readUInt32BE s.parserBuffer size0 else 0
            let pkt := if pkt.bytes = 0 then
                rtmpPacketAlloc (if pkt.header.fmt = 0 then
                    { pkt with
                      clock := if pkt.header.timestamp = 0xFFFFFF then ets
                        else pkt.header.timestamp,
                      delta := 0 }
                  else
                    { pkt with
                      delta := if pkt.header.timestamp = 0xFFFFFF then ets
                        else pkt.header.timestamp })
              else pkt
            let s := { s.setPacket pkt with parserState := 4 }
            rtmpChunkReadAux fuel s ((b :: rest).drop m) acc
          else
            rtmpChunkReadAux fuel s ((b :: rest).drop m) acc
      else if s.parserState = 4 then
        match s.parserPacket with
        | none => (s, acc)
        | some pkt =>
          let size1 := min (s.inChunkSize - pkt.bytes % s.inChunkSize)
            (pkt.header.length - pkt.bytes)
          let size := min size1 (b :: rest).length
          let pkt := if size > 0 then
              { pkt with payload := listWriteAt pkt.payload pkt.bytes ((b :: rest).take size) }
            else pkt
          let pkt := { pkt with bytes := pkt.bytes + size }
          if pkt.header.length ≤ pkt.bytes then
            let pkt := { pkt with bytes := 0, clock := pkt.clock + pkt.delta }
            let s := { s.setPacket pkt with parserState := 0 }
            rtmpChunkReadAux fuel s ((b :: rest).drop size) (acc ++ [pkt])
          else if pkt.bytes % s.inChunkSize = 0 then
            let s := { s.setPacket pkt with parserState := 0 }
            rtmpChunkReadAux fuel s ((b :: rest).drop size) acc
          else
            rtmpChunkReadAux fuel (s.setPacket pkt) ((b :: rest).drop size) acc
      else (s, acc)

/-- Inbound chunk reader (rtmpChunkRead), entered with a whole received
buffer.  The trailing acknowledgement-counter bookkeeping of the source
(inAckSize, sendACK) is independent of packet parsing and not modeled; no
claim refers to it. -/
def rtmpChunkRead (s : ChunkParser) (data : List Nat) : ChunkParser × List RtmpPacket :=
  rtmpChunkReadAux (5 * data.length + 5) s data []

/-! ### Helper lemmas about buffer writes and reads -/

theorem getD_append_left (l r : List Nat) (i : Nat) (h : i < l.length) :
    (l ++ r).getD i 0 = l.getD i 0 := by
  rw [List.getD_eq_getElem?_getD, List.getD_eq_getElem?_getD, List.getElem?_append_left h]

theorem getD_append_right (l r : List Nat) (i : Nat) (h : l.length ≤ i) :
    (l ++ r).getD i 0 = r.getD (i - l.length) 0 := by
  rw [List.getD_eq_getElem?_getD, List.getD_eq_getElem?_getD, List.getElem?_append_right h]

theorem getD_take (l : List Nat) (n m : Nat) (h : m < n) :
    (l.take n).getD m 0 = l.getD m 0 := by
  rw [List.getD_eq_getElem?_getD, List.getD_eq_getElem?_getD, List.getElem?_take_of_lt h]

theorem getD_drop (l : List Nat) (n m : Nat) :
    (l.drop n).getD m 0 = l.getD (n + m) 0 := by
  rw [List.getD_eq_getElem?_getD, List.getD_eq_getElem?_getD, List.getElem?_drop]

theorem getD_of_le (l : List Nat) (n : Nat) (h : l.length ≤ n) : l.getD n 0 = 0 :=
  List.getD_eq_default l 0 h

/-- Pointwise description of listWriteAt: positions inside the written window
read from src, all others read from the original buffer. -/
theorem bget_listWriteAt (buf src : List Nat) (off i : Nat) :
    bget (listWriteAt buf off src) i =
      if off ≤ i ∧ i < off + src.length ∧ i < buf.length then bget src (i - off)
      else bget buf i := by
  unfold bget listWriteAt
  have hA : (buf.take off).length = min off buf.length := by simp
  have hB : (src.take (buf.length - off)).length = min src.length (buf.length - off) := by
    simp [Nat.min_comm]
  by_cases h1 : i < min off buf.length
  · rw [getD_append_left _ _ _ (by simp only [List.length_append]; omega)]
    rw [getD_append_left _ _ _ (by omega)]
    rw [getD_take _ _ _ (by omega), if_neg (by omega)]
  · by_cases h2 : i < min off buf.length + min src.length (buf.length - off)
    · rw [getD_append_left _ _ _ (by simp only [List.length_append]; omega)]
      rw [getD_append_right _ _ _ (by omega)]
      rw [hA]
      rw [getD_take _ _ _ (by omega)]
      rw [if_pos (by omega)]
      congr 1
      omega
    · rw [getD_append_right _ _ _ (by simp only [List.length_append]; omega)]
      simp only [List.length_append]
      rw [hA, hB]
      rw [getD_drop]
      by_cases h3 : off ≤ buf.length
      · by_cases h4 : src.length ≤ buf.length - off
        · rw [if_neg (by omega)]
          congr 1
          omega
        · rw [if_neg (by omega)]
          rw [getD_of_le _ _ (by omega), getD_of_le _ _ (by omega)]
      · rw [if_neg (by omega)]
        rw [getD_of_le _ _ (by omega), getD_of_le _ _ (by omega)]

theorem bget_out_of_range (l : List Nat) (i : Nat) (h : l.length ≤ i) : bget l i = 0 :=
  getD_of_le l i h

/-- Basic headers for the claims cid range: one byte carrying fmt and cid. -/
theorem basicHeaderCreate_small (fmt cid : Nat) (hf : fmt ≤ 3) (hc : cid ≤ 63) :
    rtmpChunkBasicHeaderCreate fmt cid = [fmt * 64 + cid] := by
  unfold rtmpChunkBasicHeaderCreate
  rw [if_neg (by omega), if_neg (by omega)]
  simp only [List.cons.injEq, and_true]
  omega

/-- Explicit shape of the type-0 message header. -/
theorem messageHeaderCreate_fmt0 (h : RtmpHeader) (hf : h.fmt = 0) :
    rtmpChunkMessageHeaderCreate h =
      be3 (if h.timestamp ≥ 0xffffff then 0xffffff else h.timestamp) ++
      be3 h.length ++ [h.type % 256] ++ le4 h.stream_id := by
  unfold rtmpChunkMessageHeaderCreate
  rw [hf]
  norm_num [rtmpHeaderSize]
  unfold listWriteAt be3 le4
  norm_num

/-- Reference form of the sliced payload body: each full chunk of C payload
bytes is followed by the continuation trailer (type-3 basic header plus the
extended timestamp when in use), and the final chunk is bare.  The fuel is
always instantiated with at least rem.length. -/
def chunkBody (trailer : List Nat) (C : Nat) : Nat → List Nat → List Nat
  | 0, rem => rem
  | fuel + 1, rem =>
    if rem.length ≤ C then rem
    else rem.take C ++ trailer ++ chunkBody trailer C fuel (rem.drop C)

theorem chunkBody_length (trailer : List Nat) (C : Nat) (hC : 1 ≤ C) :
    ∀ fuel rem, rem.length ≤ fuel → 1 ≤ rem.length →
    (chunkBody trailer C fuel rem).length
      = rem.length + (rem.length - 1) / C * trailer.length := by
  intro fuel
  induction fuel with
  | zero => intro rem h1 h2; omega
  | succ f ih =>
    intro rem h1 h2
    unfold chunkBody
    by_cases hle : rem.length ≤ C
    · rw [if_pos hle]
      have : (rem.length - 1) / C = 0 := Nat.div_eq_of_lt (by omega)
      rw [this]
      omega
    · rw [if_neg hle]
      have hrec := ih (rem.drop C) (by simp; omega) (by simp; omega)
      simp only [List.length_append, List.length_take, List.length_drop] at hrec ⊢
      rw [hrec]
      have hdiv : (rem.length - 1) / C = (rem.length - C - 1) / C + 1 := by
        have h3 : rem.length - 1 = (rem.length - C - 1) + C := by omega
        rw [h3, Nat.add_div_right _ (by omega)]
      rw [hdiv, Nat.add_mul, Nat.one_mul]
      have hmin : min C rem.length = C := by omega
      rw [hmin]
      omega

theorem chunkBody_fuel (trailer : List Nat) (C : Nat) :
    ∀ f1 f2 rem, rem.length ≤ f1 → rem.length ≤ f2 → 1 ≤ C →
    chunkBody trailer C f1 rem = chunkBody trailer C f2 rem := by
  intro f1
  induction f1 with
  | zero =>
    intro f2 rem h1 h2 hC
    have : rem = [] := by
      cases rem with
      | nil => rfl
      | cons a t => simp at h1
    subst this
    cases f2 with
    | zero => rfl
    | succ g => simp [chunkBody]
  | succ f ih =>
    intro f2 rem h1 h2 hC
    cases f2 with
    | zero =>
      have : rem = [] := by
        cases rem with
        | nil => rfl
        | cons a t => simp at h2
      subst this
      simp [chunkBody]
    | succ g =>
      unfold chunkBody
      by_cases hle : rem.length ≤ C
      · rw [if_pos hle, if_pos hle]
      · rw [if_neg hle, if_neg hle,
          ih g (rem.drop C) (by simp; omega) (by simp; omega) hC]

/-- The slicing loop of the encoder, run on an exactly sized zero tail,
produces the reference chunk body. -/
theorem rtmpChunksCreateLoop_spec (C : Nat) (hC : 1 ≤ C) (payload bh3 extL : List Nat)
    (useExt : Bool) (ts : Nat)
    (hextL : extL = if useExt then be4 ts else []) :
    ∀ fuel rem k pre,
      rem = payload.drop k →
      1 ≤ rem.length →
      rem.length + 1 ≤ fuel →
      rtmpChunksCreateLoop C payload bh3 useExt ts fuel
          (pre ++ List.replicate
            (rem.length + (rem.length - 1) / C * (bh3.length + extL.length)) 0)
          pre.length rem.length k
        = pre ++ chunkBody (bh3 ++ extL) C rem.length rem := by
  intro fuel
  induction fuel with
  | zero => intro rem k pre h1 h2 h3; omega
  | succ f ih =>
    intro rem k pre hrem hlen hfuel
    have hne : rem.length ≠ 0 := by omega
    by_cases hle : rem.length ≤ C
    · -- final chunk: one write, then the loop exits with payloadSize zero
      have hq : (rem.length - 1) / C = 0 := Nat.div_eq_of_lt (by omega)
      rw [hq]
      simp only [Nat.zero_mul, Nat.add_zero]
      obtain ⟨f2, rfl⟩ : ∃ f2, f = f2 + 1 := ⟨f - 1, by omega⟩
      simp only [rtmpChunksCreateLoop]
      rw [if_neg hne, if_neg (show ¬rem.length > C by omega), if_pos trivial]
      have htake : (payload.drop k).take rem.length = rem := by
        rw [← hrem]
        exact List.take_of_length_le (by omega)
      rw [htake]
      have hwr := listWriteAt_exact pre rem 0
      simp only [Nat.add_zero, List.replicate_zero, List.append_nil] at hwr
      rw [hwr]
      obtain ⟨m, hm⟩ : ∃ m, rem.length = m + 1 := ⟨rem.length - 1, by omega⟩
      rw [hm]
      simp only [chunkBody]
      rw [if_pos hle]
    · -- full chunk of C bytes, then the continuation trailer, then recurse
      have hq : (rem.length - 1) / C = (rem.length - C - 1) / C + 1 := by
        have h3 : rem.length - 1 = (rem.length - C - 1) + C := by omega
        rw [h3, Nat.add_div_right _ (by omega)]
      simp only [rtmpChunksCreateLoop]
      rw [if_neg hne, if_pos (show rem.length > C by omega)]
      have htakeC : (payload.drop k).take C = rem.take C := by rw [hrem]
      rw [htakeC]
      have hlenTake : (rem.take C).length = C := by simp; omega
      set T := bh3.length + extL.length with hT
      set q := (rem.length - C - 1) / C with hqdef
      set N := (rem.length - C) + q * T with hN
      have hsplit : rem.length + (rem.length - 1) / C * T = C + (T + N) := by
        rw [hq, Nat.add_mul, Nat.one_mul, hN]
        omega
      rw [hsplit]
      have hw1 : listWriteAt (pre ++ List.replicate (C + (T + N)) 0) pre.length (rem.take C)
          = pre ++ rem.take C ++ List.replicate (T + N) 0 := by
        have := listWriteAt_exact pre (rem.take C) (T + N)
        rw [hlenTake] at this
        exact this
      rw [hw1]
      have hoff1 : pre.length + C = (pre ++ rem.take C).length := by
        simp [hlenTake]
      rw [hoff1]
      have hsplit2 : T + N = bh3.length + (extL.length + N) := by omega
      rw [hsplit2]
      have hw2 : listWriteAt (pre ++ rem.take C ++ List.replicate (bh3.length + (extL.length + N)) 0)
          (pre ++ rem.take C).length bh3
          = pre ++ rem.take C ++ bh3 ++ List.replicate (extL.length + N) 0 :=
        listWriteAt_exact (pre ++ rem.take C) bh3 (extL.length + N)
      rw [hw2]
      have hdropLen : (rem.drop C).length = rem.length - C := by simp
      have hNeq : N = (rem.drop C).length + ((rem.drop C).length - 1) / C * T := by
        rw [hdropLen, hN, hqdef]
      have hbody : chunkBody (bh3 ++ extL) C rem.length rem
          = rem.take C ++ (bh3 ++ extL)
            ++ chunkBody (bh3 ++ extL) C (rem.drop C).length (rem.drop C) := by
        obtain ⟨m, hm⟩ : ∃ m, rem.length = m + 1 := ⟨rem.length - 1, by omega⟩
        rw [hm]
        simp only [chunkBody]
        rw [if_neg hle]
        rw [chunkBody_fuel (bh3 ++ extL) C m (rem.drop C).length (rem.drop C)
          (by simp; omega) le_rfl hC]
      cases useExt with
      | false =>
        have hE : extL = ([] : List Nat) := by simpa using hextL
        rw [if_neg Bool.false_ne_true, if_neg Bool.false_ne_true]
        have hoff3 : (pre ++ rem.take C).length + bh3.length
            = (pre ++ rem.take C ++ bh3).length := by simp only [List.length_append]
        rw [hoff3]
        have harg : pre ++ rem.take C ++ bh3 ++ List.replicate (extL.length + N) 0
            = (pre ++ rem.take C ++ bh3)
              ++ List.replicate ((rem.drop C).length + ((rem.drop C).length - 1) / C * T) 0 := by
          rw [hE]
          simp only [List.length_nil, Nat.zero_add]
          rw [← hNeq]
        rw [harg]
        have hds : rem.length - C = (rem.drop C).length := by simp
        rw [hds]
        have hrec := ih (rem.drop C) (k + C) (pre ++ rem.take C ++ bh3)
          (by rw [hrem, List.drop_drop])
          (by rw [hdropLen]; omega) (by rw [hdropLen]; omega)
        rw [hrec, hbody, hE]
        simp only [List.append_assoc, List.nil_append, List.append_nil]
      | true =>
        have hE : extL = be4 ts := by simpa using hextL
        have hlen4 : extL.length = 4 := by rw [hE]; rfl
        rw [if_pos rfl, if_pos rfl]
        have hoff3 : (pre ++ rem.take C).length + bh3.length
            = (pre ++ rem.take C ++ bh3).length := by simp only [List.length_append]
        rw [hoff3]
        have hw3 : listWriteAt (pre ++ rem.take C ++ bh3 ++ List.replicate (extL.length + N) 0)
            (pre ++ rem.take C ++ bh3).length (be4 ts)
            = pre ++ rem.take C ++ bh3 ++ extL ++ List.replicate N 0 := by
          rw [hlen4, hE]
          have h5 := listWriteAt_exact (pre ++ rem.take C ++ bh3) (be4 ts) N
          rw [show (be4 ts).length = 4 from rfl] at h5
          exact h5
        rw [hw3]
        have hoff4 : (pre ++ rem.take C ++ bh3).length + 4
            = (pre ++ rem.take C ++ bh3 ++ extL).length := by
          simp only [List.length_append, hlen4]
        rw [hoff4]
        have harg : pre ++ rem.take C ++ bh3 ++ extL ++ List.replicate N 0
            = (pre ++ rem.take C ++ bh3 ++ extL)
              ++ List.replicate ((rem.drop C).length + ((rem.drop C).length - 1) / C * T) 0 := by
          rw [← hNeq]
        rw [harg]
        have hds : rem.length - C = (rem.drop C).length := by simp
        rw [hds]
        have hrec := ih (rem.drop C) (k + C) (pre ++ rem.take C ++ bh3 ++ extL)
          (by rw [hrem, List.drop_drop])
          (by rw [hdropLen]; omega) (by rw [hdropLen]; omega)
        rw [hrec, hbody]
        simp only [List.append_assoc]

theorem listWriteAt_fill0 (src : List Nat) (n m : Nat) (hn : n = src.length + m) :
    listWriteAt (List.replicate n 0) 0 src = src ++ List.replicate m 0 := by
  subst hn
  have h0 := listWriteAt_exact [] src m
  simpa using h0

theorem listWriteAt_fill (pre src : List Nat) (n m off : Nat)
    (hoff : off = pre.length) (hn : n = src.length + m) :
    listWriteAt (pre ++ List.replicate n 0) off src = pre ++ src ++ List.replicate m 0 := by
  subst hoff
  subst hn
  exact listWriteAt_exact pre src m

/-- Shape of the chunk stream produced by the encoder for a fresh fmt-0
message with a one-byte chunk-stream id: the basic header byte, the 11-byte
message header, the optional extended timestamp, and the payload sliced
every outChunkSize bytes with a type-3 continuation header (plus the
extended timestamp again) between slices. -/
theorem rtmpChunksCreate_spec (C : Nat) (hC : 1 ≤ C) (pkt : RtmpPacket)
    (hfmt : pkt.header.fmt = 0) (hcid : pkt.header.cid ≤ 63)
    (hlen : pkt.header.length = pkt.payload.length) (hP : 1 ≤ pkt.payload.length) :
    rtmpChunksCreate C pkt
      = [pkt.header.cid] ++ rtmpChunkMessageHeaderCreate pkt.header
        ++ (if pkt.header.timestamp ≥ 0xffffff then be4 pkt.header.timestamp else [])
        ++ chunkBody
            ([192 + pkt.header.cid]
              ++ (if pkt.header.timestamp ≥ 0xffffff then be4 pkt.header.timestamp else []))
            C pkt.payload.length pkt.payload := by
  have hmh : (rtmpChunkMessageHeaderCreate pkt.header).length = 11 := by
    rw [messageHeaderCreate_fmt0 pkt.header hfmt]
    rfl
  have hbh : rtmpChunkBasicHeaderCreate pkt.header.fmt pkt.header.cid = [pkt.header.cid] := by
    rw [hfmt, basicHeaderCreate_small 0 pkt.header.cid (by omega) hcid]
    norm_num
  have hbh3 : rtmpChunkBasicHeaderCreate 3 pkt.header.cid = [192 + pkt.header.cid] := by
    rw [basicHeaderCreate_small 3 pkt.header.cid (by omega) hcid]
  simp only [rtmpChunksCreate]
  rw [hbh, hbh3, hlen]
  by_cases hts : pkt.header.timestamp ≥ 0xffffff
  · rw [decide_eq_true hts, if_pos hts]
    simp only [eq_self_iff_true, if_true]
    have hloop := rtmpChunksCreateLoop_spec C hC pkt.payload [192 + pkt.header.cid]
      (be4 pkt.header.timestamp) true pkt.header.timestamp (by simp)
      (pkt.payload.length + 1) pkt.payload 0
      ([pkt.header.cid] ++ rtmpChunkMessageHeaderCreate pkt.header ++ be4 pkt.header.timestamp)
      (List.drop_zero pkt.payload).symm hP le_rfl
    by_cases hmod : pkt.payload.length % C = 0
    · rw [if_pos hmod]
      have hdiv : pkt.payload.length / C = (pkt.payload.length - 1) / C + 1 := by
        obtain ⟨m, hm⟩ : ∃ m, pkt.payload.length = m + 1 := ⟨pkt.payload.length - 1, by omega⟩
        rw [hm] at hmod
        rw [hm, Nat.succ_div, if_pos (Nat.dvd_of_mod_eq_zero hmod)]
        simp
      rw [listWriteAt_fill0 [pkt.header.cid] _
        (11 + (4 + (pkt.payload.length + (pkt.payload.length - 1) / C * ([192 + pkt.header.cid].length + (be4 pkt.header.timestamp).length)))) (by simp only [hmh, List.length_append, List.length_singleton, be4, List.length_cons, List.length_nil]; omega)]
      rw [listWriteAt_fill [pkt.header.cid] (rtmpChunkMessageHeaderCreate pkt.header) _
        (4 + (pkt.payload.length + (pkt.payload.length - 1) / C * ([192 + pkt.header.cid].length + (be4 pkt.header.timestamp).length))) _ rfl (by rw [hmh])]
      rw [listWriteAt_fill ([pkt.header.cid] ++ rtmpChunkMessageHeaderCreate pkt.header)
        (be4 pkt.header.timestamp) _
        (pkt.payload.length + (pkt.payload.length - 1) / C * ([192 + pkt.header.cid].length + (be4 pkt.header.timestamp).length)) _ (by simp only [List.length_append])
        (by rw [show (be4 pkt.header.timestamp).length = 4 from rfl])]
      rw [show [pkt.header.cid].length + (rtmpChunkMessageHeaderCreate pkt.header).length + 4
          = ([pkt.header.cid] ++ rtmpChunkMessageHeaderCreate pkt.header
              ++ be4 pkt.header.timestamp).length
        from by simp only [List.length_append]; rfl]
      rw [hloop]
    · rw [if_neg hmod]
      have hdiv : pkt.payload.length / C = (pkt.payload.length - 1) / C := by
        obtain ⟨m, hm⟩ : ∃ m, pkt.payload.length = m + 1 := ⟨pkt.payload.length - 1, by omega⟩
        rw [hm] at hmod
        rw [hm, Nat.succ_div, if_neg (fun hd => hmod (Nat.eq_zero_of_dvd_of_lt hd |> fun _ => by
          exact (Nat.mod_eq_zero_of_dvd hd)))]
        simp
      rw [listWriteAt_fill0 [pkt.header.cid] _
        (11 + (4 + (pkt.payload.length + (pkt.payload.length - 1) / C * ([192 + pkt.header.cid].length + (be4 pkt.header.timestamp).length)))) (by simp only [hmh, List.length_append, List.length_singleton, be4, List.length_cons, List.length_nil]; omega)]
      rw [listWriteAt_fill [pkt.header.cid] (rtmpChunkMessageHeaderCreate pkt.header) _
        (4 + (pkt.payload.length + (pkt.payload.length - 1) / C * ([192 + pkt.header.cid].length + (be4 pkt.header.timestamp).length))) _ rfl (by rw [hmh])]
      rw [listWriteAt_fill ([pkt.header.cid] ++ rtmpChunkMessageHeaderCreate pkt.header)
        (be4 pkt.header.timestamp) _
        (pkt.payload.length + (pkt.payload.length - 1) / C * ([192 + pkt.header.cid].length + (be4 pkt.header.timestamp).length)) _ (by simp only [List.length_append])
        (by rw [show (be4 pkt.header.timestamp).length = 4 from rfl])]
      rw [show [pkt.header.cid].length + (rtmpChunkMessageHeaderCreate pkt.header).length + 4
          = ([pkt.header.cid] ++ rtmpChunkMessageHeaderCreate pkt.header
              ++ be4 pkt.header.timestamp).length
        from by simp only [List.length_append]; rfl]
      rw [hloop]
  · rw [decide_eq_false hts, if_neg hts]
    simp only [Bool.false_eq_true, if_false]
    have hloop := rtmpChunksCreateLoop_spec C hC pkt.payload [192 + pkt.header.cid]
      ([] : List Nat) false pkt.header.timestamp (by simp)
      (pkt.payload.length + 1) pkt.payload 0
      ([pkt.header.cid] ++ rtmpChunkMessageHeaderCreate pkt.header)
      (List.drop_zero pkt.payload).symm hP le_rfl
    by_cases hmod : pkt.payload.length % C = 0
    · rw [if_pos hmod]
      have hdiv : pkt.payload.length / C = (pkt.payload.length - 1) / C + 1 := by
        obtain ⟨m, hm⟩ : ∃ m, pkt.payload.length = m + 1 := ⟨pkt.payload.length - 1, by omega⟩
        rw [hm] at hmod
        rw [hm, Nat.succ_div, if_pos (Nat.dvd_of_mod_eq_zero hmod)]
        simp
      rw [listWriteAt_fill0 [pkt.header.cid] _
        (11 + (pkt.payload.length + (pkt.payload.length - 1) / C * ([192 + pkt.header.cid].length + ([] : List Nat).length))) (by simp only [hmh, List.length_append, List.length_singleton, be4, List.length_cons, List.length_nil]; omega)]
      rw [listWriteAt_fill [pkt.header.cid] (rtmpChunkMessageHeaderCreate pkt.header) _
        (pkt.payload.length + (pkt.payload.length - 1) / C * ([192 + pkt.header.cid].length + ([] : List Nat).length)) _ rfl (by rw [hmh])]
      rw [show [pkt.header.cid].length + (rtmpChunkMessageHeaderCreate pkt.header).length
          = ([pkt.header.cid] ++ rtmpChunkMessageHeaderCreate pkt.header).length
        from by simp only [List.length_append]]
      rw [hloop]
      simp only [List.append_nil, List.append_assoc]
    · rw [if_neg hmod]
      have hdiv : pkt.payload.length / C = (pkt.payload.length - 1) / C := by
        obtain ⟨m, hm⟩ : ∃ m, pkt.payload.length = m + 1 := ⟨pkt.payload.length - 1, by omega⟩
        rw [hm] at hmod
        rw [hm, Nat.succ_div, if_neg (fun hd => hmod (Nat.mod_eq_zero_of_dvd hd))]
        simp
      rw [listWriteAt_fill0 [pkt.header.cid] _
        (11 + (pkt.payload.length + (pkt.payload.length - 1) / C * ([192 + pkt.header.cid].length + ([] : List Nat).length))) (by simp only [hmh, List.length_append, List.length_singleton, be4, List.length_cons, List.length_nil]; omega)]
      rw [listWriteAt_fill [pkt.header.cid] (rtmpChunkMessageHeaderCreate pkt.header) _
        (pkt.payload.length + (pkt.payload.length - 1) / C * ([192 + pkt.header.cid].length + ([] : List Nat).length)) _ rfl (by rw [hmh])]
      rw [show [pkt.header.cid].length + (rtmpChunkMessageHeaderCreate pkt.header).length
          = ([pkt.header.cid] ++ rtmpChunkMessageHeaderCreate pkt.header).length
        from by simp only [List.length_append]]
      rw [hloop]
      simp only [List.append_nil, List.append_assoc]

/-! ### Inbound parser single-step and phase lemmas -/

theorem readAux_nil (fuel : Nat) (s : ChunkParser) (acc : List RtmpPacket) :
    rtmpChunkReadAux fuel s [] acc = (s, acc) := by
  cases fuel with
  | zero => rfl
  | succ f => rfl

theorem mapGet_nil (k : Nat) : mapGet [] k = none := rfl

theorem mapGet_singleton (c : Nat) (p : RtmpPacket) : mapGet [(c, p)] c = some p := by
  simp [mapGet, List.find?]

theorem mapSet_nil (k : Nat) (v : RtmpPacket) : mapSet [] k v = [(k, v)] := rfl

theorem mapSet_singleton (c : Nat) (p v : RtmpPacket) : mapSet [(c, p)] c v = [(c, v)] := by
  simp [mapSet, List.find?]

/-- State 0 (INIT): consume one byte as the first basic-header byte. -/
theorem stepState0 (fuel : Nat) (B : List Nat) (pb bb C : Nat)
    (pp : Option RtmpPacket) (m : List (Nat × RtmpPacket))
    (b : Nat) (d : List Nat) (acc : List RtmpPacket) :
    rtmpChunkReadAux (fuel + 1) ⟨B, 0, pb, bb, pp, m, C⟩ (b :: d) acc
      = rtmpChunkReadAux fuel
        ⟨listWriteAt B 0 [b], 1,
          1, if b % 64 = 0 then 2 else if b % 64 = 1 then 3 else 1, pp, m, C⟩ d acc := by
  conv_lhs => unfold rtmpChunkReadAux
  simp only []
  rw [if_pos trivial]

/-- State 1 (BASIC_HEADER) with a one-byte basic header already complete:
no byte is consumed and the parser moves to state 2. -/
theorem stepState1 (fuel : Nat) (B : List Nat) (C : Nat)
    (pp : Option RtmpPacket) (m : List (Nat × RtmpPacket))
    (b : Nat) (d : List Nat) (acc : List RtmpPacket) :
    rtmpChunkReadAux (fuel + 1) ⟨B, 1, 1, 1, pp, m, C⟩ (b :: d) acc
      = rtmpChunkReadAux fuel ⟨B, 2, 1, 1, pp, m, C⟩ (b :: d) acc := by
  conv_lhs => unfold rtmpChunkReadAux
  simp only []
  rw [if_pos trivial]
  norm_num [listWriteAt_nil]

/-- State 2 (MESSAGE_HEADER) for a type-3 continuation chunk: fmt 3 has a
0-byte message header, so nothing is consumed; rtmpPacketParse refreshes the
stored packet's fmt and cid and the parser moves to state 3. -/
theorem stepState2_cont (fuel : Nat) (B : List Nat) (C cid : Nat)
    (hb0 : bget B 0 = 192 + cid) (hcid : cid ≤ 63)
    (pkt : RtmpPacket)
    (b : Nat) (d : List Nat) (acc : List RtmpPacket) :
    rtmpChunkReadAux (fuel + 1) ⟨B, 2, 1, 1, some pkt, [(cid, pkt)], C⟩ (b :: d) acc
      = rtmpChunkReadAux fuel
        ⟨B, 3, 1, 1,
          some { pkt with header := { pkt.header with fmt := 3, cid := cid } },
          [(cid, { pkt with header := { pkt.header with fmt := 3, cid := cid } })], C⟩
        (b :: d) acc := by
  conv_lhs => unfold rtmpChunkReadAux
  simp only []
  rw [if_pos trivial]
  rw [hb0, show (192 + cid) / 64 = 3 from by omega,
    show rtmpHeaderSize.getD 3 0 = 0 from rfl]
  norm_num [listWriteAt_nil]
  have hcid1 : rtmpParseCid (192 + cid) (bget B 1) (bget B 2) 1 = cid := by
    simp only [rtmpParseCid]
    norm_num
    omega
  simp only [rtmpPacketParse]
  rw [hb0, hcid1, mapGet_singleton]
  simp only []
  rw [show (192 + cid) / 64 = 3 from by omega]
  simp only [rtmpChunkMessageHeaderRead]
  norm_num
  rw [mapSet_singleton]

/-- State 3 (EXTENDED_TIMESTAMP) on a continuation chunk whose stored
timestamp is below the 0xFFFFFF marker: nothing is consumed, the stored
packet is already mid-message (bytes nonzero) so it is left untouched, and
the parser moves to state 4. -/
theorem stepState3_noext (fuel : Nat) (B : List Nat) (C cid : Nat)
    (q : RtmpPacket) (hfmt : q.header.fmt = 3)
    (hts : q.header.timestamp ≠ 0xFFFFFF) (hqb : q.bytes ≠ 0)
    (hqc : q.header.cid = cid)
    (b : Nat) (d : List Nat) (acc : List RtmpPacket) :
    rtmpChunkReadAux (fuel + 1) ⟨B, 3, 1, 1, some q, [(cid, q)], C⟩ (b :: d) acc
      = rtmpChunkReadAux fuel ⟨B, 4, 1, 1, some q, [(cid, q)], C⟩ (b :: d) acc := by
  conv_lhs => unfold rtmpChunkReadAux
  simp only []
  rw [if_pos trivial]
  rw [hfmt, show rtmpHeaderSize.getD 3 0 = 0 from rfl, if_neg hts]
  norm_num [listWriteAt_nil]
  rw [if_neg hqb]
  simp only [ChunkParser.setPacket]
  rw [hqc, mapSet_singleton]

/-- State 3 (EXTENDED_TIMESTAMP) on a continuation chunk of a message whose
stored timestamp equals the 0xFFFFFF marker: four extended-timestamp bytes
are consumed into the scratch buffer (their value is discarded because the
packet is mid-message), and the parser moves to state 4. -/
theorem stepState3_ext (fuel : Nat) (B : List Nat) (C cid : Nat)
    (q : RtmpPacket) (hfmt : q.header.fmt = 3)
    (hts : q.header.timestamp = 0xFFFFFF) (hqb : q.bytes ≠ 0)
    (hqc : q.header.cid = cid)
    (e1 e2 e3 e4 : Nat) (d : List Nat) (acc : List RtmpPacket) :
    rtmpChunkReadAux (fuel + 1) ⟨B, 3, 1, 1, some q, [(cid, q)], C⟩
        (e1 :: e2 :: e3 :: e4 :: d) acc
      = rtmpChunkReadAux fuel
          ⟨listWriteAt B 1 [e1, e2, e3, e4], 4, 5, 1, some q, [(cid, q)], C⟩ d acc := by
  conv_lhs => unfold rtmpChunkReadAux
  simp only []
  rw [if_pos trivial]
  rw [hfmt, show rtmpHeaderSize.getD 3 0 = 0 from rfl, if_pos hts]
  rw [show (0 + 1 + 4 - 1 : Nat) = 4 from rfl]
  rw [show min 4 (e1 :: e2 :: e3 :: e4 :: d).length = 4 from by simp]
  rw [show List.take 4 (e1 :: e2 :: e3 :: e4 :: d) = [e1, e2, e3, e4] from rfl]
  norm_num
  rw [if_neg hqb]
  simp only [ChunkParser.setPacket]
  rw [hqc, mapSet_singleton]

/-- State 4 (PAYLOAD) consuming a full chunk of C bytes that does not finish
the message: the bytes are copied into the payload at offset bytes, the
counter advances to the chunk boundary, and the parser returns to state 0
without dispatching. -/
theorem stepState4_full (fuel : Nat) (B : List Nat) (pb bb C cid k L : Nat) (hC : 1 ≤ C)
    (pkt : RtmpPacket) (hpc : pkt.header.cid = cid) (hpl : pkt.header.length = L)
    (hbytes : pkt.bytes = k) (hkC : k % C = 0) (hlt : k + C < L)
    (b : Nat) (t rest2 : List Nat) (hchunk : (b :: t).length = C)
    (acc : List RtmpPacket) :
    rtmpChunkReadAux (fuel + 1) ⟨B, 4, pb, bb, some pkt, [(cid, pkt)], C⟩
        (b :: (t ++ rest2)) acc
      = rtmpChunkReadAux fuel
          ⟨B, 0, pb, bb,
            some { pkt with
                   bytes := k + C
                   payload := listWriteAt pkt.payload k (b :: t) },
            [(cid, { pkt with
                     bytes := k + C
                     payload := listWriteAt pkt.payload k (b :: t) })], C⟩ rest2 acc := by
  have hlen : (b :: (t ++ rest2)).length = C + rest2.length := by
    simp only [List.length_cons, List.length_append]
    simp only [List.length_cons] at hchunk
    omega
  conv_lhs => unfold rtmpChunkReadAux
  simp only []
  rw [if_neg (show ¬(4 : Nat) = 0 by omega), if_neg (show ¬(4 : Nat) = 1 by omega),
    if_neg (show ¬(4 : Nat) = 2 by omega), if_neg (show ¬(4 : Nat) = 3 by omega),
    if_pos trivial]
  rw [hbytes, hpl, hkC, Nat.sub_zero, hlen]
  rw [show min C (L - k) = C from by omega]
  rw [show min C (C + rest2.length) = C from by omega]
  rw [if_pos (show C > 0 by omega)]
  rw [show b :: (t ++ rest2) = (b :: t) ++ rest2 from rfl,
    List.take_left' hchunk, List.drop_left' hchunk]
  simp only []
  rw [hpl]
  rw [if_neg (show ¬L ≤ k + C by omega)]
  rw [if_pos (show (k + C) % C = 0 from by rw [Nat.add_mod_right]; exact hkC)]
  simp only [ChunkParser.setPacket]
  rw [hpc, mapSet_singleton]

/-- State 4 (PAYLOAD) consuming the final bytes of a message: the payload is
completed, the packet is dispatched (bytes reset to zero, clock advanced by
delta), the parser returns to state 0 and the input is exhausted. -/
theorem stepState4_dispatch (fuel : Nat) (B : List Nat) (pb bb C cid k L : Nat) (hC : 1 ≤ C)
    (pkt : RtmpPacket) (hpc : pkt.header.cid = cid) (hpl : pkt.header.length = L)
    (hbytes : pkt.bytes = k) (hkC : k % C = 0) (hlt : k < L) (hle2 : L ≤ k + C)
    (b : Nat) (t : List Nat) (hchunk : (b :: t).length = L - k)
    (acc : List RtmpPacket) :
    rtmpChunkReadAux (fuel + 1) ⟨B, 4, pb, bb, some pkt, [(cid, pkt)], C⟩ (b :: t) acc
      = (⟨B, 0, pb, bb,
          some { pkt with
                 bytes := 0
                 clock := pkt.clock + pkt.delta
                 payload := listWriteAt pkt.payload k (b :: t) },
          [(cid, { pkt with
                   bytes := 0
                   clock := pkt.clock + pkt.delta
                   payload := listWriteAt pkt.payload k (b :: t) })], C⟩,
        acc ++ [{ pkt with
                  bytes := 0
                  clock := pkt.clock + pkt.delta
                  payload := listWriteAt pkt.payload k (b :: t) }]) := by
  conv_lhs => unfold rtmpChunkReadAux
  simp only []
  rw [if_neg (show ¬(4 : Nat) = 0 by omega), if_neg (show ¬(4 : Nat) = 1 by omega),
    if_neg (show ¬(4 : Nat) = 2 by omega), if_neg (show ¬(4 : Nat) = 3 by omega),
    if_pos trivial]
  rw [hbytes, hpl, hkC, Nat.sub_zero, hchunk]
  rw [show min (min C (L - k)) (L - k) = L - k from by omega]
  rw [if_pos (show L - k > 0 by omega)]
  rw [List.take_of_length_le (le_of_eq hchunk), List.drop_of_length_le (le_of_eq hchunk)]
  simp only []
  rw [hpl]
  rw [if_pos (show L ≤ k + (L - k) by omega)]
  simp only [ChunkParser.setPacket]
  rw [hpc, mapSet_singleton]
  rw [readAux_nil]

/-- Reading the message header of an fmt-0 chunk fills all header fields
from the scratch buffer at offsets 1, 4, 7 and 8 (single-byte basic
header). -/
theorem messageHeaderRead_fmt0 (B : List Nat) (p : RtmpPacket) (hf : p.header.fmt = 0) :
    rtmpChunkMessageHeaderRead 1 B p
      = { p with header := { p.header with
            timestamp := readUIntBE3 B 1
            length := readUIntBE3 B 4
            type := bget B 7
            stream_id := readUInt32LE B 8 } } := by
  simp only [rtmpChunkMessageHeaderRead, hf]
  norm_num

/-- State 2 (MESSAGE_HEADER) of a fresh fmt-0 message on a fresh parser:
the 11 message-header bytes are consumed into the scratch buffer, the
packet is created and its header parsed, and the parser moves to state 3. -/
theorem stepState2_first (fuel : Nat) (B : List Nat) (hB : B.length = 18) (C cid : Nat)
    (hb0 : bget B 0 = cid) (hcid2 : 2 ≤ cid) (hcid : cid ≤ 63)
    (mh : List Nat) (hmh : mh.length = 11) (rest : List Nat) (acc : List RtmpPacket) :
    rtmpChunkReadAux (fuel + 1) ⟨B, 2, 1, 1, none, [], C⟩ (mh ++ rest) acc
      = rtmpChunkReadAux fuel
          ⟨listWriteAt B 1 mh, 3, 12, 1,
            some (rtmpChunkMessageHeaderRead 1 (listWriteAt B 1 mh)
              { header := ⟨0, cid, 0, 0, 0, 0⟩, clock := 0, delta := 0,
                payload := [], capacity := 0, bytes := 0 }),
            [(cid, rtmpChunkMessageHeaderRead 1 (listWriteAt B 1 mh)
              { header := ⟨0, cid, 0, 0, 0, 0⟩, clock := 0, delta := 0,
                payload := [], capacity := 0, bytes := 0 })], C⟩ rest acc := by
  obtain ⟨b, t, hbt⟩ : ∃ b t, mh = b :: t := by
    cases mh with
    | nil => simp at hmh
    | cons b t => exact ⟨b, t, rfl⟩
  have hmh' : (b :: t).length = 11 := by rw [← hbt]; exact hmh
  rw [hbt, show (b :: t) ++ rest = b :: (t ++ rest) from rfl]
  conv_lhs => unfold rtmpChunkReadAux
  simp only []
  rw [if_neg (show ¬(2 : Nat) = 0 by omega), if_neg (show ¬(2 : Nat) = 1 by omega),
    if_pos trivial]
  rw [hb0, show cid / 64 = 0 from by omega, show rtmpHeaderSize.getD 0 0 = 11 from rfl]
  have hlen : (b :: (t ++ rest)).length = 11 + rest.length := by
    simp only [List.length_cons, List.length_append]
    simp only [List.length_cons] at hmh'
    omega
  rw [hlen]
  rw [show (11 + 1 - 1 : Nat) = 11 from rfl]
  rw [show min 11 (11 + rest.length) = 11 from by omega]
  rw [show b :: (t ++ rest) = (b :: t) ++ rest from rfl,
    List.take_left' hmh', List.drop_left' hmh']
  rw [if_pos (show (11 : Nat) + 1 ≤ 1 + 11 by omega)]
  rw [← hbt]
  simp only [rtmpPacketParse]
  have hbg0 : bget (listWriteAt B 1 mh) 0 = cid := by
    rw [bget_listWriteAt, if_neg (by omega)]
    exact hb0
  have hcid1 : rtmpParseCid cid (bget (listWriteAt B 1 mh) 1) (bget (listWriteAt B 1 mh) 2) 1
      = cid := by
    simp only [rtmpParseCid]
    norm_num
    omega
  rw [hbg0, hcid1, show cid / 64 = 0 from by omega, mapGet_nil]
  simp only [RtmpPacket.create]
  rw [mapSet_nil]

/-- State 3 for a fresh fmt-0 message whose timestamp is below the extended
marker: no bytes are consumed; the packet clock is set from the timestamp,
delta reset, and the payload buffer allocated; the parser moves to state 4. -/
theorem stepState3_first_noext (fuel : Nat) (B : List Nat) (C cid L : Nat)
    (q : RtmpPacket) (hfmt : q.header.fmt = 0)
    (hts : q.header.timestamp ≠ 0xFFFFFF) (hqb : q.bytes = 0)
    (hqc : q.header.cid = cid) (hql : q.header.length = L) (hcap : q.capacity = 0)
    (hL : 1 ≤ L)
    (b : Nat) (d : List Nat) (acc : List RtmpPacket)
    (q2 : RtmpPacket)
    (hq2 : q2 = { q with
                  clock := q.header.timestamp
                  delta := 0
                  payload := List.replicate (L + 1024) 0
                  capacity := L + 1024 }) :
    rtmpChunkReadAux (fuel + 1) ⟨B, 3, 12, 1, some q, [(cid, q)], C⟩ (b :: d) acc
      = rtmpChunkReadAux fuel
          ⟨B, 4, 12, 1, some q2, [(cid, q2)], C⟩ (b :: d) acc := by
  subst hq2
  conv_lhs => unfold rtmpChunkReadAux
  simp only []
  rw [if_neg (show ¬(3 : Nat) = 0 by omega), if_neg (show ¬(3 : Nat) = 1 by omega),
    if_neg (show ¬(3 : Nat) = 2 by omega), if_pos trivial]
  rw [hfmt, show rtmpHeaderSize.getD 0 0 = 11 from rfl, if_neg hts]
  norm_num [listWriteAt_nil]
  rw [if_pos hqb]
  repeat rw [if_neg hts]
  simp only [ChunkParser.setPacket, rtmpPacketAlloc]
  rw [hcap, hql]
  rw [if_pos (show (0 : Nat) < L by omega)]
  rw [show ({ header := q.header
              clock := q.header.timestamp
              delta := 0
              payload := List.replicate (L + 1024) 0
              capacity := L + 1024
              bytes := q.bytes } : RtmpPacket).header.cid = cid from hqc]
  rw [mapSet_singleton]

/-- State 3 for a fresh fmt-0 message whose timestamp field holds the
0xFFFFFF marker: the four extended-timestamp bytes are consumed and become
the packet clock, delta is reset, the payload buffer is allocated, and the
parser moves to state 4. -/
theorem stepState3_first_ext (fuel : Nat) (B : List Nat) (hB : B.length = 18)
    (C cid L : Nat)
    (q : RtmpPacket) (hfmt : q.header.fmt = 0)
    (hts : q.header.timestamp = 0xFFFFFF) (hqb : q.bytes = 0)
    (hqc : q.header.cid = cid) (hql : q.header.length = L) (hcap : q.capacity = 0)
    (hL : 1 ≤ L)
    (e1 e2 e3 e4 : Nat) (d : List Nat) (acc : List RtmpPacket)
    (q2 : RtmpPacket)
    (hq2 : q2 = { q with
                  clock := e1 * 16777216 + e2 * 65536 + e3 * 256 + e4
                  delta := 0
                  payload := List.replicate (L + 1024) 0
                  capacity := L + 1024 }) :
    rtmpChunkReadAux (fuel + 1) ⟨B, 3, 12, 1, some q, [(cid, q)], C⟩
        (e1 :: e2 :: e3 :: e4 :: d) acc
      = rtmpChunkReadAux fuel
          ⟨listWriteAt B 12 [e1, e2, e3, e4], 4, 16, 1,
            some q2, [(cid, q2)], C⟩ d acc := by
  subst hq2
  have hread : readUInt32BE (listWriteAt B 12 [e1, e2, e3, e4]) 12
      = e1 * 16777216 + e2 * 65536 + e3 * 256 + e4 := by
    simp only [readUInt32BE]
    rw [bget_listWriteAt, bget_listWriteAt, bget_listWriteAt, bget_listWriteAt, hB]
    norm_num [bget]
  conv_lhs => unfold rtmpChunkReadAux
  simp only []
  rw [if_neg (show ¬(3 : Nat) = 0 by omega), if_neg (show ¬(3 : Nat) = 1 by omega),
    if_neg (show ¬(3 : Nat) = 2 by omega), if_pos trivial]
  rw [hfmt, show rtmpHeaderSize.getD 0 0 = 11 from rfl, if_pos hts]
  rw [show (11 + 1 + 4 - 12 : Nat) = 4 from rfl]
  rw [show min 4 (e1 :: e2 :: e3 :: e4 :: d).length = 4 from by simp]
  rw [show List.take 4 (e1 :: e2 :: e3 :: e4 :: d) = [e1, e2, e3, e4] from rfl]
  rw [show List.drop 4 (e1 :: e2 :: e3 :: e4 :: d) = d from rfl]
  rw [if_pos (show (11 : Nat) + 1 + 4 ≤ 12 + 4 by omega)]
  rw [if_pos hqb]
  repeat rw [if_pos hts]
  rw [hread]
  simp only [ChunkParser.setPacket, rtmpPacketAlloc]
  rw [if_pos trivial]
  simp only []
  rw [hql]
  rw [hcap]
  rw [if_pos (show (0 : Nat) < L by omega)]
  rw [show ({ header := q.header
              clock := e1 * 16777216 + e2 * 65536 + e3 * 256 + e4
              delta := 0
              payload := List.replicate (L + 1024) 0
              capacity := L + 1024
              bytes := q.bytes } : RtmpPacket).header.cid = cid from hqc]
  rw [mapSet_singleton]

/-- One full continuation round without extended timestamp: a C-byte chunk
plus its type-3 basic header are consumed and the parser is back in state 4
with the byte counter advanced by C. -/
theorem contRound_noext (fuel : Nat) (B : List Nat) (hB : B.length = 18)
    (pb bb C cid k L : Nat) (hC : 1 ≤ C) (hcid2 : 2 ≤ cid) (hcid : cid ≤ 63)
    (pkt : RtmpPacket) (hpc : pkt.header.cid = cid) (hpl : pkt.header.length = L)
    (hbytes : pkt.bytes = k) (hkC : k % C = 0) (hlt : k + C < L)
    (hts : pkt.header.timestamp ≠ 0xFFFFFF)
    (b : Nat) (t : List Nat) (hchunk : (b :: t).length = C)
    (r : Nat) (rs : List Nat) (acc : List RtmpPacket)
    (pkt2 : RtmpPacket)
    (hpkt2 : pkt2 = { pkt with
        header := { pkt.header with fmt := 3, cid := cid }
        bytes := k + C
        payload := listWriteAt pkt.payload k (b :: t) }) :
    rtmpChunkReadAux (fuel + 5) ⟨B, 4, pb, bb, some pkt, [(cid, pkt)], C⟩
        ((b :: t) ++ (192 + cid) :: r :: rs) acc
      = rtmpChunkReadAux fuel
          ⟨listWriteAt B 0 [192 + cid], 4, 1, 1, some pkt2, [(cid, pkt2)], C⟩
          (r :: rs) acc := by
  subst hpkt2
  rw [show (b :: t) ++ (192 + cid) :: r :: rs = b :: (t ++ (192 + cid) :: r :: rs) from rfl]
  rw [show fuel + 5 = fuel + 4 + 1 from rfl,
    stepState4_full (fuel + 4) B pb bb C cid k L hC pkt hpc hpl hbytes hkC hlt b t
      ((192 + cid) :: r :: rs) hchunk acc]
  rw [show fuel + 4 = fuel + 3 + 1 from rfl,
    stepState0 (fuel + 3) B pb bb C _ _ (192 + cid) (r :: rs) acc]
  rw [show (192 + cid) % 64 = cid from by omega]
  rw [if_neg (show ¬cid = 0 by omega), if_neg (show ¬cid = 1 by omega)]
  rw [show fuel + 3 = fuel + 2 + 1 from rfl,
    stepState1 (fuel + 2) _ C _ _ r rs acc]
  rw [show fuel + 2 = fuel + 1 + 1 from rfl,
    stepState2_cont (fuel + 1) _ C cid
      (by rw [bget_listWriteAt]
          simp [hB, bget]) hcid _ r rs acc]
  rw [stepState3_noext fuel _ C cid _ rfl (by simpa using hts) (by simp; omega) rfl r rs acc]

/-- One full continuation round with extended timestamp: a C-byte chunk, the
type-3 basic header and four extended-timestamp bytes are consumed and the
parser is back in state 4 with the byte counter advanced by C. -/
theorem contRound_ext (fuel : Nat) (B : List Nat) (hB : B.length = 18)
    (pb bb C cid k L : Nat) (hC : 1 ≤ C) (hcid2 : 2 ≤ cid) (hcid : cid ≤ 63)
    (pkt : RtmpPacket) (hpc : pkt.header.cid = cid) (hpl : pkt.header.length = L)
    (hbytes : pkt.bytes = k) (hkC : k % C = 0) (hlt : k + C < L)
    (hts : pkt.header.timestamp = 0xFFFFFF)
    (b : Nat) (t : List Nat) (hchunk : (b :: t).length = C)
    (e1 e2 e3 e4 : Nat) (rest : List Nat) (acc : List RtmpPacket)
    (pkt2 : RtmpPacket)
    (hpkt2 : pkt2 = { pkt with
        header := { pkt.header with fmt := 3, cid := cid }
        bytes := k + C
        payload := listWriteAt pkt.payload k (b :: t) }) :
    rtmpChunkReadAux (fuel + 5) ⟨B, 4, pb, bb, some pkt, [(cid, pkt)], C⟩
        ((b :: t) ++ (192 + cid) :: e1 :: e2 :: e3 :: e4 :: rest) acc
      = rtmpChunkReadAux fuel
          ⟨listWriteAt (listWriteAt B 0 [192 + cid]) 1 [e1, e2, e3, e4], 4, 5, 1,
            some pkt2, [(cid, pkt2)], C⟩
          rest acc := by
  subst hpkt2
  rw [show (b :: t) ++ (192 + cid) :: e1 :: e2 :: e3 :: e4 :: rest
      = b :: (t ++ (192 + cid) :: e1 :: e2 :: e3 :: e4 :: rest) from rfl]
  rw [show fuel + 5 = fuel + 4 + 1 from rfl,
    stepState4_full (fuel + 4) B pb bb C cid k L hC pkt hpc hpl hbytes hkC hlt b t
      ((192 + cid) :: e1 :: e2 :: e3 :: e4 :: rest) hchunk acc]
  rw [show fuel + 4 = fuel + 3 + 1 from rfl,
    stepState0 (fuel + 3) B pb bb C _ _ (192 + cid) (e1 :: e2 :: e3 :: e4 :: rest) acc]
  rw [show (192 + cid) % 64 = cid from by omega]
  rw [if_neg (show ¬cid = 0 by omega), if_neg (show ¬cid = 1 by omega)]
  rw [show fuel + 3 = fuel + 2 + 1 from rfl,
    stepState1 (fuel + 2) _ C _ _ e1 (e2 :: e3 :: e4 :: rest) acc]
  rw [show fuel + 2 = fuel + 1 + 1 from rfl,
    stepState2_cont (fuel + 1) _ C cid
      (by rw [bget_listWriteAt]
          simp [hB, bget]) hcid _ e1 (e2 :: e3 :: e4 :: rest) acc]
  rw [stepState3_ext fuel _ C cid _ rfl (by simpa using hts) (by simp; omega) rfl
    e1 e2 e3 e4 rest acc]

theorem list_len4 (l : List Nat) (h : l.length = 4) :
    ∃ a b c d, l = [a, b, c, d] := by
  match l, h with
  | [a, b, c, d], _ => exact ⟨a, b, c, d, rfl⟩

theorem chunkBody_ne_nil (trailer : List Nat) (C : Nat) (hC : 1 ≤ C) (fuel : Nat)
    (rem : List Nat)
    (hrem : 1 ≤ rem.length) : chunkBody trailer C fuel rem ≠ [] := by
  cases fuel with
  | zero =>
    simp only [chunkBody]
    intro h
    rw [h] at hrem
    simp at hrem
  | succ f =>
    simp only [chunkBody]
    by_cases hle : rem.length ≤ C
    · rw [if_pos hle]
      intro h
      rw [h] at hrem
      simp at hrem
    · rw [if_neg hle]
      intro h
      have := congrArg List.length h
      simp only [List.length_append, List.length_take, List.length_nil] at this
      omega

/-- Payload phase of the inbound parser: from state 4 at a chunk boundary,
reading the remaining chunk body of a message dispatches exactly one packet
carrying the stored header fields and the accumulated payload. -/
theorem payloadPhase (C : Nat) (hC : 1 ≤ C) (cid L : Nat)
    (hcid2 : 2 ≤ cid) (hcid : cid ≤ 63)
    (P : List Nat) (hPL : P.length = L) :
    ∀ rem fuel k B pb bb pkt extT acc,
      rem = L - k →
      k < L → k % C = 0 →
      5 * (L - k) + 1 ≤ fuel →
      (B : List Nat).length = 18 →
      (pkt : RtmpPacket).header.cid = cid →
      pkt.header.length = L →
      pkt.bytes = k →
      pkt.payload = P.take k ++ List.replicate (L - k + 1024) 0 →
      (pkt.header.timestamp = 0xFFFFFF → (extT : List Nat).length = 4) →
      (pkt.header.timestamp ≠ 0xFFFFFF → extT = []) →
      ∃ S q,
        rtmpChunkReadAux fuel ⟨B, 4, pb, bb, some pkt, [(cid, pkt)], C⟩
            (chunkBody ((192 + cid) :: extT) C (L - k) (P.drop k)) acc
          = (S, acc ++ [q])
        ∧ q.header.cid = cid
        ∧ q.header.length = L
        ∧ q.header.timestamp = pkt.header.timestamp
        ∧ q.header.type = pkt.header.type
        ∧ q.header.stream_id = pkt.header.stream_id
        ∧ q.clock = pkt.clock + pkt.delta
        ∧ q.payload = P ++ List.replicate 1024 0 := by
  intro rem
  induction rem using Nat.strong_induction_on with
  | _ rem ih =>
    intro fuel k B pb bb pkt extT acc hrem hkL hkC hfuel hB hpc hpl hbytes hpayload hext1 hext2
    have hdl : (P.drop k).length = L - k := by rw [List.length_drop, hPL]
    by_cases hle : L - k ≤ C
    · -- final chunk: dispatch
      obtain ⟨m, hm⟩ : ∃ m, L - k = m + 1 := ⟨L - k - 1, by omega⟩
      have hbody : chunkBody ((192 + cid) :: extT) C (L - k) (P.drop k) = P.drop k := by
        rw [hm]
        simp only [chunkBody]
        rw [if_pos (show (P.drop k).length ≤ C from by rw [hdl]; omega)]
      rw [hbody]
      obtain ⟨b, t, hbt⟩ : ∃ b t, P.drop k = b :: t := by
        cases hpd : P.drop k with
        | nil => rw [hpd] at hdl; simp at hdl; omega
        | cons b t => exact ⟨b, t, rfl⟩
      obtain ⟨f', rfl⟩ : ∃ f', fuel = f' + 1 := ⟨fuel - 1, by omega⟩
      rw [hbt, stepState4_dispatch f' B pb bb C cid k L hC pkt hpc hpl hbytes hkC
        (by omega) (by omega) b t (by rw [← hbt, hdl]) acc]
      refine ⟨_, _, rfl, by simpa using hpc, by simpa using hpl, by simp, by simp,
        by simp, by simp, ?_⟩
      show listWriteAt pkt.payload k (b :: t) = P ++ List.replicate 1024 0
      rw [← hbt, hpayload]
      rw [listWriteAt_fill (P.take k) (P.drop k) (L - k + 1024) 1024 k
        (by rw [List.length_take, hPL]; omega) (by rw [hdl])]
      rw [List.take_append_drop]
    · -- full chunk, continuation header, recurse
      obtain ⟨m, hm⟩ : ∃ m, L - k = m + 1 := ⟨L - k - 1, by omega⟩
      have hdd : (P.drop k).drop C = P.drop (k + C) := by
        rw [List.drop_drop]
      have hdl2 : (P.drop (k + C)).length = L - (k + C) := by
        rw [List.length_drop, hPL]
      have hbody : chunkBody ((192 + cid) :: extT) C (L - k) (P.drop k)
          = (P.drop k).take C ++ ((192 + cid) :: extT)
            ++ chunkBody ((192 + cid) :: extT) C (L - (k + C)) (P.drop (k + C)) := by
        rw [hm]
        simp only [chunkBody]
        rw [if_neg (show ¬(P.drop k).length ≤ C from by rw [hdl]; omega)]
        rw [hdd]
        rw [chunkBody_fuel ((192 + cid) :: extT) C m (L - (k + C)) (P.drop (k + C))
          (by rw [hdl2]; omega) (by rw [hdl2]) hC]
      rw [hbody]
      obtain ⟨b, t, hbt⟩ : ∃ b t, (P.drop k).take C = b :: t := by
        cases hpd : (P.drop k).take C with
        | nil =>
          have := congrArg List.length hpd
          rw [List.length_take, hdl] at this
          simp at this
          omega
        | cons b t => exact ⟨b, t, rfl⟩
      have hchunk : (b :: t).length = C := by
        rw [← hbt, List.length_take, hdl]
        omega
      have hpay2 : listWriteAt pkt.payload k (b :: t)
          = P.take (k + C) ++ List.replicate (L - (k + C) + 1024) 0 := by
        rw [← hbt, hpayload]
        rw [listWriteAt_fill (P.take k) ((P.drop k).take C) (L - k + 1024)
          (L - (k + C) + 1024) k
          (by rw [List.length_take, hPL]; omega)
          (by rw [List.length_take, hdl]; omega)]
        rw [← List.take_add]
      obtain ⟨f', rfl⟩ : ∃ f', fuel = f' + 5 := ⟨fuel - 5, by omega⟩
      by_cases hmark : pkt.header.timestamp = 0xFFFFFF
      · obtain ⟨e1, e2, e3, e4, hext4⟩ := list_len4 extT (hext1 hmark)
        subst hext4
        rw [hbt, List.append_assoc,
          show ((192 + cid) :: [e1, e2, e3, e4])
              ++ chunkBody ((192 + cid) :: [e1, e2, e3, e4]) C (L - (k + C))
                (P.drop (k + C))
            = (192 + cid) :: e1 :: e2 :: e3 :: e4 ::
              chunkBody ((192 + cid) :: [e1, e2, e3, e4]) C (L - (k + C))
                (P.drop (k + C)) from rfl]
        rw [contRound_ext f' B hB pb bb C cid k L hC hcid2 hcid pkt hpc hpl hbytes hkC
          (by omega) hmark b t hchunk e1 e2 e3 e4 _ acc _ rfl]
        have ihx := ih (L - (k + C)) (by omega) f' (k + C)
          (listWriteAt (listWriteAt B 0 [192 + cid]) 1 [e1, e2, e3, e4]) 5 1
          { pkt with
            header := { pkt.header with fmt := 3, cid := cid }
            bytes := k + C
            payload := listWriteAt pkt.payload k (b :: t) }
          [e1, e2, e3, e4] acc rfl (by omega)
          (by rw [Nat.add_mod_right]; exact hkC) (by omega)
          (by simp only [listWriteAt_length]; exact hB)
          rfl (by simpa using hpl) rfl (by simpa using hpay2)
          (fun _ => rfl) (by intro h; exact absurd (by simpa using hmark) h)
        obtain ⟨S, q, heq, h1, h2, h3, h4, h5, h6, h7⟩ := ihx
        rw [heq]
        exact ⟨S, q, rfl, h1, h2, by simpa using h3, by simpa using h4,
          by simpa using h5, by simpa using h6, h7⟩
      · have hextnil := hext2 hmark
        subst hextnil
        obtain ⟨r, rs, hrs⟩ : ∃ r rs,
            chunkBody ((192 + cid) :: ([] : List Nat)) C (L - (k + C)) (P.drop (k + C))
              = r :: rs := by
          cases hcb : chunkBody ((192 + cid) :: ([] : List Nat)) C (L - (k + C))
              (P.drop (k + C)) with
          | nil =>
            exact absurd hcb (chunkBody_ne_nil _ C hC _ _ (by rw [hdl2]; omega))
          | cons r rs => exact ⟨r, rs, rfl⟩
        rw [hbt, List.append_assoc, hrs,
          show ((192 + cid) :: ([] : List Nat)) ++ r :: rs
            = (192 + cid) :: r :: rs from rfl]
        rw [contRound_noext f' B hB pb bb C cid k L hC hcid2 hcid pkt hpc hpl hbytes hkC
          (by omega) hmark b t hchunk r rs acc _ rfl]
        have ihx := ih (L - (k + C)) (by omega) f' (k + C)
          (listWriteAt B 0 [192 + cid]) 1 1
          { pkt with
            header := { pkt.header with fmt := 3, cid := cid }
            bytes := k + C
            payload := listWriteAt pkt.payload k (b :: t) }
          [] acc rfl (by omega)
          (by rw [Nat.add_mod_right]; exact hkC) (by omega)
          (by simp only [listWriteAt_length]; exact hB)
          rfl (by simpa using hpl) rfl (by simpa using hpay2)
          (by intro h; exact absurd (by simpa using h) hmark) (fun _ => rfl)
        obtain ⟨S, q, heq, h1, h2, h3, h4, h5, h6, h7⟩ := ihx
        rw [hrs] at heq
        rw [heq]
        exact ⟨S, q, rfl, h1, h2, by simpa using h3, by simpa using h4,
          by simpa using h5, by simpa using h6, h7⟩

/-- Header phase on a fresh parser: the basic-header byte and the 11
message-header bytes of an fmt-0 chunk are consumed and the parser reaches
state 3 with the packet created and all header fields decoded from the
bytes. -/
theorem headerPhase (C cid : Nat) (hcid2 : 2 ≤ cid) (hcid : cid ≤ 63)
    (m1 m2 m3 m4 m5 m6 m7 m8 m9 m10 m11 : Nat) (rest : List Nat)
    (fuel : Nat) (acc : List RtmpPacket) :
    rtmpChunkReadAux (fuel + 3) ⟨List.replicate 18 0, 0, 0, 0, none, [], C⟩
        (cid :: m1 :: m2 :: m3 :: m4 :: m5 :: m6 :: m7 :: m8 :: m9 :: m10 :: m11 :: rest)
        acc
      = rtmpChunkReadAux fuel
          ⟨listWriteAt (listWriteAt (List.replicate 18 0) 0 [cid]) 1
              [m1, m2, m3, m4, m5, m6, m7, m8, m9, m10, m11], 3, 12, 1,
            some { header := ⟨0, cid,
                     m1 * 65536 + m2 * 256 + m3,
                     m4 * 65536 + m5 * 256 + m6,
                     m7,
                     m8 + m9 * 256 + m10 * 65536 + m11 * 16777216⟩,
                   clock := 0, delta := 0, payload := [], capacity := 0, bytes := 0 },
            [(cid, { header := ⟨0, cid,
                       m1 * 65536 + m2 * 256 + m3,
                       m4 * 65536 + m5 * 256 + m6,
                       m7,
                       m8 + m9 * 256 + m10 * 65536 + m11 * 16777216⟩,
                     clock := 0, delta := 0, payload := [], capacity := 0, bytes := 0 })],
            C⟩ rest acc := by
  rw [show fuel + 3 = fuel + 2 + 1 from rfl,
    stepState0 (fuel + 2) (List.replicate 18 0) 0 0 C none [] cid
      (m1 :: m2 :: m3 :: m4 :: m5 :: m6 :: m7 :: m8 :: m9 :: m10 :: m11 :: rest) acc]
  rw [show cid % 64 = cid from by omega]
  rw [if_neg (show ¬cid = 0 by omega), if_neg (show ¬cid = 1 by omega)]
  rw [show fuel + 2 = fuel + 1 + 1 from rfl,
    stepState1 (fuel + 1) _ C _ _ m1
      (m2 :: m3 :: m4 :: m5 :: m6 :: m7 :: m8 :: m9 :: m10 :: m11 :: rest) acc]
  rw [show (m1 :: m2 :: m3 :: m4 :: m5 :: m6 :: m7 :: m8 :: m9 :: m10 :: m11 :: rest)
      = [m1, m2, m3, m4, m5, m6, m7, m8, m9, m10, m11] ++ rest from rfl]
  have hB1 : (listWriteAt (List.replicate 18 0) 0 [cid]).length = 18 := by
    rw [listWriteAt_length, List.length_replicate]
  rw [show fuel + 1 = fuel + 0 + 1 from rfl,
    stepState2_first (fuel + 0) _ hB1 C cid
      (by rw [bget_listWriteAt]
          simp [bget]) hcid2 hcid
      [m1, m2, m3, m4, m5, m6, m7, m8, m9, m10, m11] rfl rest acc]
  set B2 := listWriteAt (listWriteAt (List.replicate 18 0) 0 [cid]) 1
      [m1, m2, m3, m4, m5, m6, m7, m8, m9, m10, m11] with hB2
  rw [messageHeaderRead_fmt0 _ _ rfl]
  have hcond : ∀ i : Nat, 1 ≤ i → i < 12 →
      (1 ≤ i ∧ i < 1 + ([m1, m2, m3, m4, m5, m6, m7, m8, m9, m10, m11] : List Nat).length
        ∧ i < (listWriteAt (List.replicate 18 0) 0 [cid]).length) := by
    intro i hi1 hi2
    rw [hB1]
    simp only [List.length_cons, List.length_nil]
    omega
  have e1 : bget B2 1 = m1 := by
    rw [hB2, bget_listWriteAt, if_pos (hcond 1 (by omega) (by omega))]
    rfl
  have e2 : bget B2 (1 + 1) = m2 := by
    rw [hB2, bget_listWriteAt, if_pos (hcond (1 + 1) (by omega) (by omega))]
    rfl
  have e3 : bget B2 (1 + 2) = m3 := by
    rw [hB2, bget_listWriteAt, if_pos (hcond (1 + 2) (by omega) (by omega))]
    rfl
  have e4 : bget B2 4 = m4 := by
    rw [hB2, bget_listWriteAt, if_pos (hcond 4 (by omega) (by omega))]
    rfl
  have e5 : bget B2 (4 + 1) = m5 := by
    rw [hB2, bget_listWriteAt, if_pos (hcond (4 + 1) (by omega) (by omega))]
    rfl
  have e6 : bget B2 (4 + 2) = m6 := by
    rw [hB2, bget_listWriteAt, if_pos (hcond (4 + 2) (by omega) (by omega))]
    rfl
  have e7 : bget B2 7 = m7 := by
    rw [hB2, bget_listWriteAt, if_pos (hcond 7 (by omega) (by omega))]
    rfl
  have e8 : bget B2 8 = m8 := by
    rw [hB2, bget_listWriteAt, if_pos (hcond 8 (by omega) (by omega))]
    rfl
  have e9 : bget B2 (8 + 1) = m9 := by
    rw [hB2, bget_listWriteAt, if_pos (hcond (8 + 1) (by omega) (by omega))]
    rfl
  have e10 : bget B2 (8 + 2) = m10 := by
    rw [hB2, bget_listWriteAt, if_pos (hcond (8 + 2) (by omega) (by omega))]
    rfl
  have e11 : bget B2 (8 + 3) = m11 := by
    rw [hB2, bget_listWriteAt, if_pos (hcond (8 + 3) (by omega) (by omega))]
    rfl
  simp only [readUIntBE3, readUInt32LE]
  rw [e1, e2, e3, e4, e5, e6, e7, e8, e9, e10, e11, Nat.add_zero]

/-- Full encoder/parser round trip for an fmt-0 message on a fresh parser,
for any sufficient fuel: exactly one packet is dispatched and its header
fields and payload match the encoded packet. -/
theorem chunkRoundTripAux (C : Nat) (hC : 1 ≤ C) (pkt : RtmpPacket)
    (hfmt : pkt.header.fmt = 0)
    (hcid2 : 2 ≤ pkt.header.cid) (hcid : pkt.header.cid ≤ 63)
    (hlen : pkt.header.length = pkt.payload.length)
    (hP : 1 ≤ pkt.payload.length) (hL : pkt.payload.length < 0x1000000)
    (hts : pkt.header.timestamp < 0x100000000)
    (hty : pkt.header.type < 256) (hsid : pkt.header.stream_id < 0x100000000)
    (fuel : Nat) (hfuel : 5 * pkt.payload.length + 5 ≤ fuel) :
    ∃ S q,
      rtmpChunkReadAux fuel (ChunkParser.fresh C) (rtmpChunksCreate C pkt) [] = (S, [q])
      ∧ q.header.cid = pkt.header.cid
      ∧ q.header.length = pkt.header.length
      ∧ q.header.type = pkt.header.type
      ∧ q.header.stream_id = pkt.header.stream_id
      ∧ q.clock = pkt.header.timestamp
      ∧ q.payload = pkt.payload ++ List.replicate 1024 0 := by
  have hL24 : pkt.header.length < 0x1000000 := by rw [hlen]; exact hL
  rw [rtmpChunksCreate_spec C hC pkt hfmt hcid hlen hP,
    messageHeaderCreate_fmt0 pkt.header hfmt]
  rw [show ChunkParser.fresh C
      = (⟨List.replicate 18 0, 0, 0, 0, none, [], C⟩ : ChunkParser) from rfl]
  obtain ⟨Fr, rfl⟩ : ∃ Fr, fuel = Fr + 1 + 3 := ⟨fuel - 4, by omega⟩
  by_cases hm : pkt.header.timestamp ≥ 0xffffff
  · simp only [if_pos hm]
    simp only [be3, be4, le4]
    simp only [List.cons_append, List.nil_append]
    rw [headerPhase C pkt.header.cid hcid2 hcid]
    rw [show (16777215 / 65536 % 256 * 65536 + 16777215 / 256 % 256 * 256
        + 16777215 % 256 : Nat) = 16777215 from by norm_num]
    rw [show pkt.header.length / 65536 % 256 * 65536 + pkt.header.length / 256 % 256 * 256
        + pkt.header.length % 256 = pkt.header.length from by omega]
    rw [show pkt.header.type % 256 = pkt.header.type from Nat.mod_eq_of_lt hty]
    rw [show pkt.header.stream_id % 256 + pkt.header.stream_id / 256 % 256 * 256
        + pkt.header.stream_id / 65536 % 256 * 65536
        + pkt.header.stream_id / 16777216 % 256 * 16777216
        = pkt.header.stream_id from by omega]
    rw [show Fr + 1 = Fr + 0 + 1 from rfl,
      stepState3_first_ext (Fr + 0) _ (by simp [listWriteAt_length]) C
        pkt.header.cid pkt.payload.length
        { header := ⟨0, pkt.header.cid, 16777215, pkt.header.length,
            pkt.header.type, pkt.header.stream_id⟩
          clock := 0
          delta := 0
          payload := []
          capacity := 0
          bytes := 0 }
        rfl rfl rfl rfl hlen rfl hP
        (pkt.header.timestamp / 16777216 % 256) (pkt.header.timestamp / 65536 % 256)
        (pkt.header.timestamp / 256 % 256) (pkt.header.timestamp % 256) _ []
        { header := ⟨0, pkt.header.cid, 16777215, pkt.header.length,
            pkt.header.type, pkt.header.stream_id⟩
          clock := pkt.header.timestamp / 16777216 % 256 * 16777216
            + pkt.header.timestamp / 65536 % 256 * 65536
            + pkt.header.timestamp / 256 % 256 * 256 + pkt.header.timestamp % 256
          delta := 0
          payload := List.replicate (pkt.payload.length + 1024) 0
          capacity := pkt.payload.length + 1024
          bytes := 0 }
        rfl]
    rw [show pkt.header.timestamp / 16777216 % 256 * 16777216
        + pkt.header.timestamp / 65536 % 256 * 65536
        + pkt.header.timestamp / 256 % 256 * 256 + pkt.header.timestamp % 256
        = pkt.header.timestamp from by omega]
    have pp := payloadPhase C hC pkt.header.cid pkt.payload.length hcid2 hcid
      pkt.payload rfl pkt.payload.length (Fr + 0) 0
      (listWriteAt (listWriteAt (listWriteAt (List.replicate 18 0) 0 [pkt.header.cid]) 1
        [16777215 / 65536 % 256, 16777215 / 256 % 256, 16777215 % 256,
          pkt.header.length / 65536 % 256, pkt.header.length / 256 % 256,
          pkt.header.length % 256,
          pkt.header.type,
          pkt.header.stream_id % 256, pkt.header.stream_id / 256 % 256,
          pkt.header.stream_id / 65536 % 256, pkt.header.stream_id / 16777216 % 256])
        12 [pkt.header.timestamp / 16777216 % 256, pkt.header.timestamp / 65536 % 256,
            pkt.header.timestamp / 256 % 256, pkt.header.timestamp % 256])
      16 1
      { header := ⟨0, pkt.header.cid, 16777215, pkt.header.length,
          pkt.header.type, pkt.header.stream_id⟩
        clock := pkt.header.timestamp
        delta := 0
        payload := List.replicate (pkt.payload.length + 1024) 0
        capacity := pkt.payload.length + 1024
        bytes := 0 }
      [pkt.header.timestamp / 16777216 % 256, pkt.header.timestamp / 65536 % 256,
        pkt.header.timestamp / 256 % 256, pkt.header.timestamp % 256] []
      (by omega) (by omega) (Nat.zero_mod C) (by omega)
      (by simp [listWriteAt_length]) rfl hlen rfl (by simp)
      (fun _ => rfl) (fun h => absurd rfl h)
    obtain ⟨S, q, heq, h1, h2, h3, h4, h5, h6, h7⟩ := pp
    rw [Nat.sub_zero, List.drop_zero] at heq
    rw [heq]
    refine ⟨S, q, by simp, h1, ?_, h4, h5, ?_, h7⟩
    · rw [h2]
      exact hlen.symm
    · rw [h6]
      simp
  · simp only [if_neg hm]
    simp only [be3, le4]
    simp only [List.cons_append, List.nil_append, List.append_nil]
    rw [headerPhase C pkt.header.cid hcid2 hcid]
    rw [show pkt.header.timestamp / 65536 % 256 * 65536
        + pkt.header.timestamp / 256 % 256 * 256 + pkt.header.timestamp % 256
        = pkt.header.timestamp from by omega]
    rw [show pkt.header.length / 65536 % 256 * 65536 + pkt.header.length / 256 % 256 * 256
        + pkt.header.length % 256 = pkt.header.length from by omega]
    rw [show pkt.header.type % 256 = pkt.header.type from Nat.mod_eq_of_lt hty]
    rw [show pkt.header.stream_id % 256 + pkt.header.stream_id / 256 % 256 * 256
        + pkt.header.stream_id / 65536 % 256 * 65536
        + pkt.header.stream_id / 16777216 % 256 * 16777216
        = pkt.header.stream_id from by omega]
    obtain ⟨r, rs, hrs⟩ : ∃ r rs,
        chunkBody ((192 + pkt.header.cid) :: ([] : List Nat)) C
          pkt.payload.length pkt.payload = r :: rs := by
      cases hcb : chunkBody ((192 + pkt.header.cid) :: ([] : List Nat)) C
          pkt.payload.length pkt.payload with
      | nil => exact absurd hcb (chunkBody_ne_nil _ C hC _ _ (by omega))
      | cons r rs => exact ⟨r, rs, rfl⟩
    rw [hrs]
    rw [show Fr + 1 = Fr + 0 + 1 from rfl,
      stepState3_first_noext (Fr + 0) _ C
        pkt.header.cid pkt.payload.length
        { header := ⟨0, pkt.header.cid, pkt.header.timestamp, pkt.header.length,
            pkt.header.type, pkt.header.stream_id⟩
          clock := 0
          delta := 0
          payload := []
          capacity := 0
          bytes := 0 }
        rfl (show pkt.header.timestamp ≠ 16777215 from by omega) rfl rfl hlen rfl hP
        r rs []
        { header := ⟨0, pkt.header.cid, pkt.header.timestamp, pkt.header.length,
            pkt.header.type, pkt.header.stream_id⟩
          clock := pkt.header.timestamp
          delta := 0
          payload := List.replicate (pkt.payload.length + 1024) 0
          capacity := pkt.payload.length + 1024
          bytes := 0 }
        rfl]
    have pp := payloadPhase C hC pkt.header.cid pkt.payload.length hcid2 hcid
      pkt.payload rfl pkt.payload.length (Fr + 0) 0
      (listWriteAt (listWriteAt (List.replicate 18 0) 0 [pkt.header.cid]) 1
        [pkt.header.timestamp / 65536 % 256, pkt.header.timestamp / 256 % 256,
          pkt.header.timestamp % 256,
          pkt.header.length / 65536 % 256, pkt.header.length / 256 % 256,
          pkt.header.length % 256,
          pkt.header.type,
          pkt.header.stream_id % 256, pkt.header.stream_id / 256 % 256,
          pkt.header.stream_id / 65536 % 256, pkt.header.stream_id / 16777216 % 256])
      12 1
      { header := ⟨0, pkt.header.cid, pkt.header.timestamp, pkt.header.length,
          pkt.header.type, pkt.header.stream_id⟩
        clock := pkt.header.timestamp
        delta := 0
        payload := List.replicate (pkt.payload.length + 1024) 0
        capacity := pkt.payload.length + 1024
        bytes := 0 }
      [] []
      (by omega) (by omega) (Nat.zero_mod C) (by omega)
      (by simp [listWriteAt_length]) rfl hlen rfl (by simp)
      (fun h => absurd (show pkt.header.timestamp = 16777215 from h) (by omega))
      (fun _ => rfl)
    obtain ⟨S, q, heq, h1, h2, h3, h4, h5, h6, h7⟩ := pp
    rw [Nat.sub_zero, List.drop_zero, hrs] at heq
    rw [heq]
    refine ⟨S, q, by simp, h1, ?_, h4, h5, ?_, h7⟩
    · rw [h2]
      exact hlen.symm
    · rw [h6]
      simp

/-- C1: counterexample to the original claim.  For the zero-length payload
(L = 0, allowed by the claim's "for all L >= 0") the encoder's allocation
adjustment n -= 1 strikes one byte from the 12-byte header-only chunk, the
truncated 11-byte stream leaves the parser waiting in the message-header
state, and no packet at all is dispatched instead of exactly one. -/
theorem c1_counterexample :
    (rtmpChunkRead (ChunkParser.fresh 128)
        (rtmpChunksCreate 128
          { header := ⟨0, 3, 0, 0, 20, 1⟩, clock := 0, delta := 0,
            payload := [], capacity := 0, bytes := 0 })).2 = []
    ∧ (rtmpChunksCreate 128
        { header := ⟨0, 3, 0, 0, 20, 1⟩, clock := 0, delta := 0,
          payload := [], capacity := 0, bytes := 0 }).length = 11 := by
  constructor
  · rfl
  · rfl

/-- C1 (amended): the encode/parse round trip does hold for one-byte
chunk-stream ids 2..63, nonempty payloads below 2^24 whose length matches
the header, timestamps below 2^32, types below 2^8 and stream ids below
2^32, for every outbound chunk size C >= 1 equal to the inbound chunk size:
exactly one packet is dispatched, its cid, length, type and stream id match
the encoded header, its clock is the encoded timestamp (delta
normalization: clock = timestamp + delta with delta 0 for an fmt-0 chunk),
and its payload buffer holds exactly the encoded payload. -/
theorem c1_amended (C : Nat) (hC : 1 ≤ C) (pkt : RtmpPacket)
    (hfmt : pkt.header.fmt = 0)
    (hcid2 : 2 ≤ pkt.header.cid) (hcid : pkt.header.cid ≤ 63)
    (hlen : pkt.header.length = pkt.payload.length)
    (hP : 1 ≤ pkt.payload.length) (hL : pkt.payload.length < 0x1000000)
    (hts : pkt.header.timestamp < 0x100000000)
    (hty : pkt.header.type < 256) (hsid : pkt.header.stream_id < 0x100000000) :
    ∃ S q,
      rtmpChunkRead (ChunkParser.fresh C) (rtmpChunksCreate C pkt) = (S, [q])
      ∧ q.header.cid = pkt.header.cid
      ∧ q.header.length = pkt.header.length
      ∧ q.header.type = pkt.header.type
      ∧ q.header.stream_id = pkt.header.stream_id
      ∧ q.clock = pkt.header.timestamp
      ∧ q.payload.take pkt.header.length = pkt.payload := by
  have hencLen : pkt.payload.length ≤ (rtmpChunksCreate C pkt).length := by
    rw [rtmpChunksCreate_spec C hC pkt hfmt hcid hlen hP]
    simp only [List.length_append]
    rw [chunkBody_length ([192 + pkt.header.cid]
        ++ (if pkt.header.timestamp ≥ 0xffffff then be4 pkt.header.timestamp else []))
      C hC pkt.payload.length pkt.payload le_rfl hP]
    omega
  obtain ⟨S, q, heq, h1, h2, h3, h4, h5, h6⟩ :=
    chunkRoundTripAux C hC pkt hfmt hcid2 hcid hlen hP hL hts hty hsid
      (5 * (rtmpChunksCreate C pkt).length + 5) (by omega)
  refine ⟨S, q, ?_, h1, h2, h3, h4, h5, ?_⟩
  · rw [rtmpChunkRead]
    exact heq
  · rw [h6, hlen, List.take_left]

/-- C1 witness: the amended round trip evaluated at chunk size 4 and a
concrete 9-byte message on chunk stream 3 (three chunks). -/
theorem c1_witness :
    ∃ S q,
      rtmpChunkRead (ChunkParser.fresh 4)
          (rtmpChunksCreate 4
            { header := ⟨0, 3, 100, 9, 20, 5⟩, clock := 0, delta := 0,
              payload := [10, 20, 30, 40, 50, 60, 70, 80, 90],
              capacity := 0, bytes := 0 }) = (S, [q])
      ∧ q.header.cid = 3 ∧ q.header.length = 9 ∧ q.header.type = 20
      ∧ q.header.stream_id = 5 ∧ q.clock = 100
      ∧ q.payload.take 9 = [10, 20, 30, 40, 50, 60, 70, 80, 90] :=
  c1_amended 4 (by omega)
    { header := ⟨0, 3, 100, 9, 20, 5⟩, clock := 0, delta := 0,
      payload := [10, 20, 30, 40, 50, 60, 70, 80, 90], capacity := 0, bytes := 0 }
    rfl (by decide) (by decide) rfl (by decide) (by decide) (by decide) (by decide)
    (by decide)

end EggMedia
